import Mathlib

/-! Verification of malice: result-store connection pool, scan command and path
utilities.

A shallow embedding of

* `internal/espool/pool.go`, `internal/espool/errors.go` (the Elasticsearch
  connection pool guarded by a `sync.Once`),
* `commands/scan.go` (`validateAndNormalizePath`, `cmdScanWithContext`,
  `runPluginsWithSemaphore`),
* `internal/util/file.go` (`SafeJoinPath`, `CopyFile`),
* `malice/errors/errors.go` (`ScanError`, `NewScanError`), and
* `api/server/middleware.go`, `api/server/server.go` (the global
  middlewares),

followed by the properties established about them.

Go pointers that may be nil are `Option` values, a Go `error` result is an
`Option` of an error value (`none` is the nil error), and calls are
sequential: every method of `Pool` runs under the pool's lock or inside
`once.Do`, so a run is a sequence of completed calls.
-/

namespace espool

/-- The part of `elasticsearch.Database` this repository reads: the two
fields logged by `Pool.Init`. The type itself is declared in an external
package. -/
structure Database where
  URL : String
  Index : String
deriving DecidableEq, Repr

/-- Error values that flow through the pool. The two sentinels are the
package variables of `errors.go`; `external msg` is an error value made by
the external `elasticsearch` package (the result of `db.Init()`), which is
never one of this package's sentinels. -/
inductive Error where
  | nilDatabase
  | notInitialized
  | external (msg : String)
deriving DecidableEq, Repr

/-- The variable `ErrNilDatabase` of `errors.go`. -/
def ErrNilDatabase : Error := Error.nilDatabase

/-- The variable `ErrNotInitialized` of `errors.go`. -/
def ErrNotInitialized : Error := Error.notInitialized

/-- The message of an error value (`err.Error()`). -/
def Error.message : Error → String
  | .nilDatabase => "database cannot be nil"
  | .notInitialized => "elasticsearch pool not initialized"
  | .external msg => msg

/-- The external method `(*elasticsearch.Database).Init`. Its answer may
depend on the connection attempts made before it (oldest first) and on the
configuration it is called on: `none` is a nil error, `some msg` a failure
reported by the external package. -/
abbrev Connector := List Database → Database → Option String

/-- The struct `Pool`: `once` is the done flag of the `sync.Once` field, the
mutex carries no data. -/
structure Pool where
  client : Option Database := none
  once : Bool := false
  err : Option Error := none
deriving DecidableEq, Repr

/-- A pool together with the record of every `db.Init()` invocation made so
far, oldest first. -/
structure State where
  pool : Pool := {}
  calls : List Database := []
deriving DecidableEq, Repr

/-- The zero value `&Pool{}` with no connection attempt made yet. -/
def fresh : State := {}

/-- The method `Pool.Init`: the first component is the returned error. The
local `initErr` starts nil and is assigned only inside the function handed
to `once.Do`, which runs only when the once flag is still unset. -/
def Pool.Init (dbInit : Connector) (s : State) (db : Option Database) :
    Option Error × State :=
  if s.pool.once then
    (none, s)
  else
    match db with
    | none =>
      (some ErrNilDatabase,
        { s with pool := { s.pool with once := true, err := some ErrNilDatabase } })
    | some d =>
      match dbInit s.calls d with
      | some msg =>
        (some (Error.external msg),
          { pool := { s.pool with once := true, err := some (Error.external msg) },
            calls := s.calls ++ [d] })
      | none =>
        (none,
          { pool := { s.pool with once := true, client := some d },
            calls := s.calls ++ [d] })

/-- The method `Pool.Get`: the handle and the error it returns. -/
def Pool.Get (p : Pool) : Option Database × Option Error :=
  match p.err with
  | some e => (none, some e)
  | none =>
    match p.client with
    | none => (none, some ErrNotInitialized)
    | some c => (some c, none)

/-- The method `Pool.Reset`. -/
def Pool.Reset (s : State) : State :=
  { s with pool := { client := none, err := none, once := false } }

/-- The function `InitGlobal`, on the state of the variable `globalPool`. -/
def InitGlobal (dbInit : Connector) (g : State) (db : Option Database) :
    Option Error × State :=
  Pool.Init dbInit g db

/-- The function `GetGlobal`. -/
def GetGlobal (g : State) : Option Database × Option Error :=
  Pool.Get g.pool

/-- The function `ResetGlobal`. -/
def ResetGlobal (g : State) : State :=
  Pool.Reset g

/-- A run of consecutive `Init` calls with the given configurations: the
errors returned, in call order, and the state after the last call. -/
def initAll (dbInit : Connector) (s : State) :
    List (Option Database) → List (Option Error) × State
  | [] => ([], s)
  | db :: rest =>
    let r := Pool.Init dbInit s db
    let rs := initAll dbInit r.2 rest
    (r.1 :: rs.1, rs.2)

end espool

/-! ## Go standard library: `path/filepath` (Unix) and `os`

These functions are not part of the repository. They follow the documented
behaviour of the Go standard library on Unix, where the separator is `/`. -/

namespace filepath

/-- The components of a path: the pieces between separators, empty pieces
included. -/
def splitSep : List Char → List (List Char)
  | [] => [[]]
  | c :: cs =>
    match splitSep cs with
    | [] => if c = '/' then [[], []] else [[c]]
    | w :: ws => if c = '/' then [] :: w :: ws else (c :: w) :: ws

/-- One component processed by `Clean`; `out` holds the components kept so
far, last first. An empty or `.` component is dropped, a `..` removes the
component before it, is dropped at the root, and is kept at the start of a
relative path. -/
def cleanStep (rooted : Bool) (out : List (List Char)) (c : List Char) :
    List (List Char) :=
  if c = [] ∨ c = ['.'] then out
  else if c = ['.', '.'] then
    match out with
    | [] => if rooted then [] else [c]
    | top :: rest => if top = ['.', '.'] then c :: out else rest
  else c :: out

/-- Components joined by single separators. -/
def joinSep : List (List Char) → List Char
  | [] => []
  | [c] => c
  | c :: d :: rest => c ++ '/' :: joinSep (d :: rest)

/-- The function `filepath.Clean` on the characters of a path. -/
def cleanChars (path : List Char) : List Char :=
  match path with
  | [] => ['.']
  | c :: _ =>
    let rooted := decide (c = '/')
    let out := ((splitSep path).foldl (cleanStep rooted) []).reverse
    if rooted then '/' :: joinSep out
    else if out = [] then ['.'] else joinSep out

/-- The function `filepath.Clean`: the shortest path name equivalent to
`path` by purely lexical processing. -/
def Clean (path : String) : String :=
  String.mk (cleanChars path.data)

/-- The function `filepath.IsAbs`. -/
def IsAbs (path : String) : Bool :=
  match path.data with
  | c :: _ => decide (c = '/')
  | [] => false

/-- The function `filepath.Join`: leading empty elements are ignored, the
rest is joined by separators and cleaned; with no non-empty element the
result is the empty string. -/
def Join : List String → String
  | [] => ""
  | e :: rest =>
    if e = "" then Join rest else Clean (String.intercalate "/" (e :: rest))

/-- The function `filepath.Abs`: `getwd` is the result of `os.Getwd()`, the
only way `Abs` can fail. -/
def Abs (getwd : Except String String) (path : String) : Except String String :=
  if IsAbs path then
    Except.ok (Clean path)
  else
    match getwd with
    | Except.error err => Except.error err
    | Except.ok wd => Except.ok (Join [wd, path])

end filepath

namespace os

/-- The bit `os.ModeDir` of an `os.FileMode` (a `uint32`). -/
def ModeDir : Nat := 2 ^ 31

/-- The bit `os.ModeSymlink`. -/
def ModeSymlink : Nat := 2 ^ 27

/-- The bit `os.ModeDevice`. -/
def ModeDevice : Nat := 2 ^ 26

/-- The bit `os.ModeNamedPipe`. -/
def ModeNamedPipe : Nat := 2 ^ 25

/-- The bit `os.ModeSocket`. -/
def ModeSocket : Nat := 2 ^ 24

/-- The bit `os.ModeCharDevice`. -/
def ModeCharDevice : Nat := 2 ^ 21

/-- The bit `os.ModeIrregular`. -/
def ModeIrregular : Nat := 2 ^ 19

/-- The mask `os.ModeType` of the file type bits. -/
def ModeType : Nat :=
  ModeDir ||| ModeSymlink ||| ModeNamedPipe ||| ModeSocket ||| ModeDevice |||
    ModeCharDevice ||| ModeIrregular

/-- The method `FileMode.IsRegular`: no type bit is set. -/
def IsRegular (mode : Nat) : Bool :=
  mode &&& ModeType == 0

/-- What `os.Stat` reports of a file: `Mode()` and `Size()` (an `int64`). -/
structure FileInfo where
  mode : Nat
  size : Int
deriving DecidableEq, Repr

/-- An error of `os.Stat`: its message and whether `os.IsNotExist` holds of
it. -/
structure PathError where
  msg : String
  notExist : Bool
deriving DecidableEq, Repr

/-- The system calls `validateAndNormalizePath` relies on: the result of
`os.Getwd()` and the answer of `os.Stat` for each path. -/
structure System where
  getwd : Except String String
  stat : String → Except PathError FileInfo

end os

namespace commands

/-- The constant `maxFileSize` of `validateAndNormalizePath`: 512 MiB. -/
def maxFileSize : Int := 512 * 1024 * 1024

/-- The function `validateAndNormalizePath` of `commands/scan.go`: `none` is
the nil error, `some msg` an error made by `fmt.Errorf` with message
`msg`. -/
def validateAndNormalizePath (sys : os.System) (path : String) : Option String :=
  match filepath.Abs sys.getwd path with
  | Except.error err => some ("cannot resolve path: " ++ err)
  | Except.ok absPath =>
    match sys.stat absPath with
    | Except.error err =>
      if err.notExist then some ("file not found: " ++ path)
      else some ("cannot access file: " ++ err.msg)
    | Except.ok info =>
      if !os.IsRegular info.mode then
        some ("path is not a regular file: " ++ path)
      else if info.size > maxFileSize then
        some ("file too large: " ++ toString info.size ++ " bytes (max: " ++
          toString maxFileSize ++ ")")
      else none

/-- A machine whose working directory is `/tmp`, holding the directory
`/tmp` and the 12-byte regular file `/tmp/test.bin` and nothing else. -/
def sampleSystem : os.System where
  getwd := Except.ok "/tmp"
  stat := fun p =>
    if p = "/tmp" then Except.ok { mode := os.ModeDir ||| 0o755, size := 4096 }
    else if p = "/tmp/test.bin" then Except.ok { mode := 0o644, size := 12 }
    else Except.error { msg := "stat " ++ p ++ ": no such file or directory", notExist := true }

end commands

/-! ## The scan command: `cmdScanWithContext`

The packages `container`, `database`, `plugins`, `persist` and the external
`utils` and `elasticsearch` are not part of the sources at hand: what their
functions answer is taken from the environment, and every call made to them
is recorded, in order. -/

namespace commands

/-- A container as listed by `container.List`: the two fields read by
`cmdScanWithContext`. -/
structure Container where
  ID : String
  Names : List String
deriving DecidableEq, Repr

/-- A plugin of the registry: the field `Name`. -/
structure Plugin where
  Name : String
deriving DecidableEq, Repr

/-- The calls `cmdScanWithContext` makes on the execution-unit runtime, the
results store and the plugin registry, and the warnings it logs. -/
inductive Effect where
  | newDockerClient
  | listContainers
  | removeContainer (id : String)
  | warn (msg : String) (err : String)
  | containerRunning
  | databaseStart
  | esInit
  | installedPluginsCheck
  | askForConfirmation
  | updateEnabledPlugins
  | getPluginsByCategory
  | fileInit
  | toMarkdownTable
  | copyToVolume
  | storeFileInfo
  | runIntelPlugins
  | getMimeType
  | getPluginsForMime
deriving DecidableEq, Repr

/-- What the collaborators of `cmdScanWithContext` answer. An `Option String`
is an `error` result (its message), an `Except String` a result with an
error. -/
structure Runtime where
  /-- The file system seen by `validateAndNormalizePath`. -/
  sys : os.System
  /-- The result of `container.List(docker, true)`. -/
  list : Except String (List Container)
  /-- The result of `container.Remove` on a container ID, given the calls
  made so far. -/
  remove : List Effect → String → Option String
  /-- The value of `es.URL`. -/
  esURL : String
  /-- The function `strings.EqualFold`. -/
  equalFold : String → String → Bool
  /-- The second result of `container.Running`. -/
  running : Bool
  /-- The result of `database.Start`. -/
  startDatabase : Option String
  /-- The result of `plugins.InstalledPluginsCheck`. -/
  pluginsInstalled : Bool
  /-- The result of `utils.AskForConfirmation`. -/
  confirm : Bool
  /-- Whether `container.CopyToVolume` managed to copy the sample (`none`)
  or failed. -/
  copyToVolume : Option String
  /-- The result of `es.StoreFileInfo`: the scan ID `resp.Id`. -/
  storeFileInfo : Except String String
  /-- The value of `file.SHA256` after `file.Init()`. -/
  sha256 : String
  /-- The result of `persist.GetMimeType`. -/
  mimeType : Except String String
  /-- The result of `plugins.GetPluginsForMime(mimeType, true)`. -/
  pluginsForMime : String → List Plugin

/-- How `cmdScanWithContext` ends: with an error of its own, or in its last
statement, the call of `runPluginsWithSemaphore`, whose result it returns. -/
inductive ScanResult where
  | failed (err : String)
  | dispatch (sha256 scanID : String) (elasticsearchInDocker : Bool)
      (pluginsForMime : List Plugin)
deriving DecidableEq, Repr

/-- The loop of `cmdScanWithContext` over the listed containers: every one
named `malice` is removed, and an error of the removal is logged as a
warning. -/
def removeStale (rt : Runtime) : List Container → List Effect → List Effect
  | [], tr => tr
  | contr :: rest, tr =>
    if "malice" ∈ contr.Names then
      match rt.remove tr contr.ID with
      | some err =>
        removeStale rt rest
          (tr ++ [Effect.removeContainer contr.ID,
            Effect.warn ("failed to remove stale container: " ++ contr.Names.headD "") err])
      | none => removeStale rt rest (tr ++ [Effect.removeContainer contr.ID])
    else removeStale rt rest tr

/-- The statements of `cmdScanWithContext` from `es.Init()` on. The result of
`container.CopyToVolume` is not used. -/
def registerAndDetect (rt : Runtime) (elasticsearchInDocker : Bool)
    (tr : List Effect) : ScanResult × List Effect :=
  let tr := tr ++ [Effect.esInit, Effect.installedPluginsCheck]
  let tr :=
    if rt.pluginsInstalled then tr
    else if rt.confirm then tr ++ [Effect.askForConfirmation, Effect.updateEnabledPlugins]
    else tr ++ [Effect.askForConfirmation]
  let tr := tr ++ [Effect.getPluginsByCategory, Effect.fileInit, Effect.toMarkdownTable,
    Effect.copyToVolume]
  let _copied := rt.copyToVolume
  let tr := tr ++ [Effect.storeFileInfo]
  match rt.storeFileInfo with
  | Except.error err => (ScanResult.failed ("scan cmd failed to store file info: " ++ err), tr)
  | Except.ok scanID =>
    let tr := tr ++ [Effect.runIntelPlugins, Effect.getMimeType]
    match rt.mimeType with
    | Except.error err => (ScanResult.failed ("failed to get file's mime type: " ++ err), tr)
    | Except.ok mimeType =>
      (ScanResult.dispatch rt.sha256 scanID elasticsearchInDocker (rt.pluginsForMime mimeType),
        tr ++ [Effect.getPluginsForMime])

/-- The statements of `cmdScanWithContext` after the clean-up loop: the
results store is started when the configured URL is the local one and no
store is running. -/
def ensureDatabase (rt : Runtime) (tr : List Effect) : ScanResult × List Effect :=
  if rt.equalFold rt.esURL "http://localhost:9200" then
    let tr := tr ++ [Effect.containerRunning]
    if !rt.running then
      let tr := tr ++ [Effect.databaseStart]
      match rt.startDatabase with
      | some err => (ScanResult.failed ("failed to start database: " ++ err), tr)
      | none => registerAndDetect rt true tr
    else registerAndDetect rt true tr
  else registerAndDetect rt false tr

/-- The function `cmdScanWithContext`: how it ends and the calls it made. -/
def cmdScanWithContext (rt : Runtime) (path : String) : ScanResult × List Effect :=
  if path.length = 0 then
    (ScanResult.failed "file path required", [])
  else
    match validateAndNormalizePath rt.sys path with
    | some err => (ScanResult.failed err, [])
    | none =>
      let tr := [Effect.newDockerClient, Effect.listContainers]
      match rt.list with
      | Except.error err => (ScanResult.failed ("failed to list containers: " ++ err), tr)
      | Except.ok containers => ensureDatabase rt (removeStale rt containers tr)

end commands

/-! ## The worker dispatch: `runPluginsWithSemaphore`

The goroutines of `runPluginsWithSemaphore` are interleaved at their channel
operations. A state holds the program counter of every goroutine and the
contents of the channels; an event is one goroutine passing one channel
operation, or the context ending. A schedule is a list of events; an event
that cannot happen in the current state (a blocked send or receive, a
goroutine that is elsewhere) leaves the state as it is. The workers go on
after the caller has returned, and the panic of any goroutine ends the
process. -/

namespace commands

/-- The constant `maxConcurrentPlugins`. -/
def maxConcurrentPlugins : Nat := 10

/-- The two values of `ctx.Err()` of a finished context:
`context.DeadlineExceeded` and `context.Canceled`. -/
inductive CtxErr where
  | deadlineExceeded
  | canceled
deriving DecidableEq, Repr

/-- The error values made in `runPluginsWithSemaphore`: `ctx.Err()` itself,
sent by a worker that gives up waiting for a slot; the error
`plugin <name> timeout` of a worker; the returned error `scan timeout: ...`,
which wraps `ctx.Err()`. -/
inductive RunError where
  | ctx (e : CtxErr)
  | pluginTimeout (name : String)
  | scanTimeout (e : CtxErr)
deriving DecidableEq, Repr

/-- The message of a context error. -/
def CtxErr.message : CtxErr → String
  | .deadlineExceeded => "context deadline exceeded"
  | .canceled => "context canceled"

/-- The message `err.Error()`. -/
def RunError.message : RunError → String
  | .ctx e => e.message
  | .pluginTimeout name => "plugin " ++ name ++ " timeout"
  | .scanTimeout e => "scan timeout: " ++ e.message

/-- The error a `RunError` wraps (the verb `%w`), if any. -/
def RunError.Unwrap : RunError → Option CtxErr
  | .scanTimeout e => some e
  | _ => none

/-- Where the goroutine of one plugin stands: `waiting` at the `select` that
acquires a slot, `running` between the acquisition and the end of
`StartPlugin`, `finished` after its return, `panicked` after a send on a
closed channel, which ends the process. -/
inductive Worker where
  | waiting
  | running
  | finished
  | panicked
deriving DecidableEq, Repr

/-- Where the calling goroutine stands: at the final `select`; past its
`return` statement with the result `err` (`none` is nil) and before the
deferred calls (`leaving`); between the deferred `close(errors)` and the
deferred `close(sem)` (`closing`); back in its caller with the result
(`returned`); or panicked. -/
inductive Main where
  | selecting
  | leaving (err : Option RunError)
  | closing (err : Option RunError)
  | returned (err : Option RunError)
  | panicked (msg : String)
deriving DecidableEq, Repr

/-- The state of a call of `runPluginsWithSemaphore`. -/
structure RunState where
  /-- The plugins, in the order of `pluginsForMime`. -/
  plugins : List Plugin
  /-- The goroutine of each plugin. -/
  workers : List Worker
  /-- The number of elements buffered in the channel `sem`. -/
  sem : Nat
  /-- Whether `sem` is closed. -/
  semClosed : Bool
  /-- The elements buffered in the channel `errors`, oldest first. -/
  errors : List RunError
  /-- Whether `errors` is closed. -/
  errorsClosed : Bool
  /-- The counter of the wait group `wg`. -/
  wg : Nat
  /-- Whether the channel `done` is closed. -/
  done : Bool
  /-- The value of `ctx.Err()`: `none` while the context is not done. -/
  ctx : Option CtxErr
  /-- The calling goroutine. -/
  main : Main
  /-- The names of the plugins on which `StartPlugin` was called, in call
  order. -/
  started : List String
  /-- The errors logged as `plugin error` warnings. -/
  logged : List RunError
  /-- The panic that ended the process, if any: a panic of any goroutine is
  not recovered and ends the process, the caller included. -/
  panic : Option String
deriving DecidableEq, Repr

/-- The steps of the goroutines. -/
inductive Event where
  /-- The deadline of `ctx` fires. -/
  | deadline
  /-- The owner of `ctx` cancels it. -/
  | cancel
  /-- Worker `i` takes the case `sem <- struct{}{}` and calls `StartPlugin`. -/
  | acquire (i : Nat)
  /-- Worker `i` takes the case `<-ctx.Done()` while waiting for a slot. -/
  | giveUp (i : Nat)
  /-- The call `StartPlugin` of worker `i` returns; `slow` tells whether the
  two minutes of its own `pluginCtx` have passed. -/
  | finish (i : Nat) (slow : Bool)
  /-- The call `wg.Wait()` returns and `done` is closed. -/
  | waitReturns
  /-- The caller takes the case `<-done`. -/
  | mainDone
  /-- The caller takes the case `<-ctx.Done()` and executes its `return`. -/
  | mainCtx
  /-- The caller runs the deferred `close(errors)`. -/
  | deferCloseErrors
  /-- The caller runs the deferred `close(sem)` and is back in its caller. -/
  | deferCloseSem
deriving DecidableEq, Repr

/-- The state after the `for` loop that starts one goroutine per plugin, for
a context whose `Err()` is `ctx`. -/
def RunState.init (ctx : Option CtxErr) (plugins : List Plugin) : RunState where
  plugins := plugins
  workers := List.replicate plugins.length Worker.waiting
  sem := 0
  semClosed := false
  errors := []
  errorsClosed := false
  wg := plugins.length
  done := false
  ctx := ctx
  main := Main.selecting
  started := []
  logged := []
  panic := none

/-- The name of plugin `i`. -/
def RunState.name (s : RunState) (i : Nat) : String :=
  match s.plugins.get? i with
  | some p => p.Name
  | none => ""

/-- A worker leaves its goroutine after a send of `err` on `errors`, having
released `release` slots of `sem`; the deferred `wg.Done()` runs in either
case. A send on the closed channel panics, which ends the process. The send
is disabled when the buffer of `errors`, of capacity `len(pluginsForMime)`,
is full. -/
def RunState.sendAndLeave (s : RunState) (i : Nat) (err : RunError) (release : Nat) :
    Option RunState :=
  if s.errorsClosed then
    some { s with workers := s.workers.set i Worker.panicked, sem := s.sem - release,
                  wg := s.wg - 1, panic := some "send on closed channel" }
  else if s.errors.length < s.plugins.length then
    some { s with workers := s.workers.set i Worker.finished, errors := s.errors ++ [err],
                  sem := s.sem - release, wg := s.wg - 1 }
  else none

/-- One step of a process that is alive: the state after the event, or
`none` when the event cannot happen in the state. -/
def RunState.act (s : RunState) : Event → Option RunState
  | Event.deadline =>
    if s.ctx = none then some { s with ctx := some CtxErr.deadlineExceeded } else none
  | Event.cancel =>
    if s.ctx = none then some { s with ctx := some CtxErr.canceled } else none
  | Event.acquire i =>
    if s.workers.get? i = some Worker.waiting then
      if s.semClosed then
        some { s with workers := s.workers.set i Worker.panicked, wg := s.wg - 1,
                      panic := some "send on closed channel" }
      else if s.sem < maxConcurrentPlugins then
        some { s with workers := s.workers.set i Worker.running, sem := s.sem + 1,
                      started := s.started ++ [s.name i] }
      else none
    else none
  | Event.giveUp i =>
    if s.workers.get? i = some Worker.waiting then
      match s.ctx with
      | some e => s.sendAndLeave i (RunError.ctx e) 0
      | none => none
    else none
  | Event.finish i slow =>
    if s.workers.get? i = some Worker.running then
      if slow || s.ctx.isSome then
        s.sendAndLeave i (RunError.pluginTimeout (s.name i)) 1
      else
        some { s with workers := s.workers.set i Worker.finished, sem := s.sem - 1,
                      wg := s.wg - 1 }
    else none
  | Event.waitReturns =>
    if s.wg = 0 ∧ s.done = false then some { s with done := true } else none
  | Event.mainDone =>
    -- line 220 closes `errors`, the loop drains it, `return nil` runs the
    -- deferred `close(errors)`, which panics; `close(sem)` runs while panicking
    if s.main = Main.selecting ∧ s.done = true then
      if s.errorsClosed then
        some { s with semClosed := true, main := Main.panicked "close of closed channel",
                      panic := some "close of closed channel" }
      else
        some { s with errorsClosed := true, errors := [], logged := s.logged ++ s.errors,
                      semClosed := true, main := Main.panicked "close of closed channel",
                      panic := some "close of closed channel" }
    else none
  | Event.mainCtx =>
    if s.main = Main.selecting then
      match s.ctx with
      | some e => some { s with main := Main.leaving (some (RunError.scanTimeout e)) }
      | none => none
    else none
  | Event.deferCloseErrors =>
    match s.main with
    | Main.leaving ret =>
      if s.errorsClosed then
        some { s with semClosed := true, main := Main.panicked "close of closed channel",
                      panic := some "close of closed channel" }
      else some { s with errorsClosed := true, main := Main.closing ret }
    | _ => none
  | Event.deferCloseSem =>
    match s.main with
    | Main.closing ret =>
      if s.semClosed then
        some { s with main := Main.panicked "close of closed channel",
                      panic := some "close of closed channel" }
      else some { s with semClosed := true, main := Main.returned ret }
    | _ => none

/-- One step: nothing happens any more once a panic has ended the
process. -/
def RunState.step (s : RunState) (e : Event) : Option RunState :=
  if s.panic = none then s.act e else none

/-- The state after a schedule. -/
def RunState.run (s : RunState) : List Event → RunState
  | [] => s
  | e :: es => RunState.run ((s.step e).getD s) es

/-- The function `runPluginsWithSemaphore` under a schedule: with no plugin
it returns nil at once, otherwise the goroutines run as scheduled. -/
def runPluginsWithSemaphore (ctx : Option CtxErr) (pluginsForMime : List Plugin)
    (schedule : List Event) : RunState :=
  if pluginsForMime.length = 0 then
    { RunState.init ctx pluginsForMime with main := Main.returned none }
  else
    (RunState.init ctx pluginsForMime).run schedule

/-- The number of workers past admission: holding a slot of `sem`. -/
def RunState.pastAdmission (s : RunState) : Nat :=
  s.workers.count Worker.running

/-- The number of workers that have not reached the end of their
goroutine. -/
def RunState.unfinished (s : RunState) : Nat :=
  s.workers.count Worker.waiting + s.workers.count Worker.running

end commands

/-! ## Safe joining of paths: `SafeJoinPath` -/

namespace filepath

/-- The longest common prefix of two lists removed from both. -/
def dropCommon : List (List Char) → List (List Char) → List (List Char) × List (List Char)
  | b :: bs, t :: ts => if b = t then dropCommon bs ts else (b :: bs, t :: ts)
  | bs, ts => (bs, ts)

/-- The elements `Rel` walks over: the pieces between separators, where the
empty path has none and the root has the single empty piece before its
separator. -/
def relWords (path : List Char) : List (List Char) :=
  if path = [] then [] else if path = ['/'] then [[]] else splitSep path

/-- Whether a path starts with a separator. -/
def slashed (path : List Char) : Bool :=
  match path with
  | c :: _ => decide (c = '/')
  | [] => false

/-- The function `filepath.Rel` on cleaned paths given by their characters:
the common leading elements are skipped, each element left of the base
becomes `..`, and the elements left of the target follow. It fails when one
path is rooted and the other is not, and when the base would have to leave a
`..` element behind. -/
def relChars (basepath targpath : String) (base targ : List Char) :
    Except String (List Char) :=
  if targ = base then Except.ok ['.']
  else
    let base := if base = ['.'] then [] else base
    if slashed base != slashed targ then
      Except.error ("Rel: can't make " ++ targpath ++ " relative to " ++ basepath)
    else
      match dropCommon (relWords base) (relWords targ) with
      | (b :: bs, t :: ts) =>
        if b = ['.', '.'] then
          Except.error ("Rel: can't make " ++ targpath ++ " relative to " ++ basepath)
        else
          Except.ok (joinSep (List.replicate (b :: bs).length ['.', '.'] ++ t :: ts))
      | (b :: bs, []) => Except.ok (joinSep (List.replicate (b :: bs).length ['.', '.']))
      | ([], ts) => Except.ok (joinSep ts)

/-- The function `filepath.Rel`: a relative path that is lexically equivalent
to `targpath` when joined to `basepath`. -/
def Rel (basepath targpath : String) : Except String String :=
  match relChars basepath targpath (cleanChars basepath.data) (cleanChars targpath.data) with
  | Except.ok rel => Except.ok (String.mk rel)
  | Except.error err => Except.error err

/-- The function `filepath.HasPrefix`: whether `p` begins with `pre`. -/
def HasPrefix (p pre : String) : Bool :=
  pre.data.isPrefixOf p.data

/-- The names a path goes through: its non-empty pieces between
separators. -/
def components (path : String) : List (List Char) :=
  (splitSep path.data).filter (fun c => c ≠ [])

end filepath

namespace util

/-- The function `SafeJoinPath` of `internal/util/file.go`: the returned
path and the returned error (`none` is nil); `getwd` is the result of
`os.Getwd()` used by `filepath.Abs`. -/
def SafeJoinPath (getwd : Except String String) (base elem : String) :
    String × Option String :=
  let path := filepath.Join [base, elem]
  match filepath.Abs getwd path with
  | Except.error err => ("", some ("abs path: " ++ err))
  | Except.ok absPath =>
    match filepath.Abs getwd base with
    | Except.error err => ("", some ("abs base: " ++ err))
    | Except.ok absBase =>
      match filepath.Rel absBase absPath with
      | Except.error err => ("", some ("rel path: " ++ err))
      | Except.ok relPath =>
        if relPath = ".." ∨ filepath.HasPrefix relPath (".." ++ "/") then
          ("", some ("path traversal detected: " ++ elem))
        else (absPath, none)

end util

/-! ## Sample inputs and observations -/

namespace commands

/-- A machine whose only entry is the regular file `/tmp/sample.bin`, of the
given size. -/
def sizeSystem (size : Int) : os.System where
  getwd := Except.ok "/tmp"
  stat := fun p =>
    if p = "/tmp/sample.bin" then Except.ok { mode := 0o644, size := size }
    else Except.error { msg := "stat " ++ p ++ ": no such file or directory", notExist := true }

/-- The container IDs on which `container.Remove` was called, in call
order. -/
def removedIds (tr : List Effect) : List String :=
  tr.filterMap fun e =>
    match e with
    | Effect.removeContainer id => some id
    | _ => none

/-- The calls that come after the registration of the sample: the intel
workers, the type detection and the query for the analysis workers. -/
def Effect.isDownstream : Effect → Bool
  | Effect.runIntelPlugins => true
  | Effect.getMimeType => true
  | Effect.getPluginsForMime => true
  | _ => false

/-- What holds of the channels and counters in every state of a dispatch:
the slots taken in `sem` are those of the running workers and never exceed
its capacity, the wait group counts the workers that have not left their
goroutine, `done` is closed only once that count is zero, no channel is
closed while the caller is at its `select`, `errors` is closed once the
deferred `close(errors)` has run, and both channels are closed once the
caller has returned. -/
def RunState.Consistent (s : RunState) : Prop :=
  s.workers.count Worker.running = s.sem ∧
    s.sem ≤ maxConcurrentPlugins ∧
    s.wg = s.workers.count Worker.waiting + s.workers.count Worker.running ∧
    (s.done = true → s.wg = 0) ∧
    ((s.main = Main.selecting → s.errorsClosed = false ∧ s.semClosed = false) ∧
      (∀ r, s.main = Main.closing r → s.errorsClosed = true) ∧
      (∀ r, s.main = Main.returned r → s.errorsClosed = true ∧ s.semClosed = true))

end commands

namespace filepath

/-- A name of a cleaned path: a piece that is not empty, not `.`, not `..`
and holds no separator. -/
def IsName (c : List Char) : Prop :=
  c ≠ [] ∧ c ≠ ['.'] ∧ c ≠ ['.', '.'] ∧ '/' ∉ c

end filepath

namespace commands

/-- A run in which everything works except, possibly, the copy of the sample
into the volume: an external results store, two listed containers of which
the first is a stale `malice` one whose removal fails, and one plugin for
the detected type. -/
def sampleRuntime (copy : Option String) : Runtime where
  sys := sampleSystem
  list := Except.ok [{ ID := "c1", Names := ["malice"] }, { ID := "c2", Names := ["elastic"] }]
  remove := fun _ _ => some "removal in progress"
  esURL := "http://es.example:9200"
  equalFold := fun a b => a.data.map Char.toLower == b.data.map Char.toLower
  running := false
  startDatabase := none
  pluginsInstalled := true
  confirm := false
  copyToVolume := copy
  storeFileInfo := Except.ok "scan-1"
  sha256 := "9f86d081"
  mimeType := Except.ok "text/plain"
  pluginsForMime := fun _ => [{ Name := "yara" }]

end commands

/-! ## Copying files: `CopyFile`

The file system is a table from names to entries. A name stands for the
file it resolves to: the table has no links and does not resolve names, so
two spellings of one file (`/tmp/./a` for `/tmp/a`, a relative name, a
link) are to be given as one name, and two different names are two
different files. The system calls of `CopyFile` follow the behaviour of the
Go package `os` on Unix. -/

namespace os

/-- The permission bits `os.ModePerm`. -/
def ModePerm : Nat := 0o777

/-- The bit `os.ModeSetuid`. -/
def ModeSetuid : Nat := 2 ^ 23

/-- The bit `os.ModeSetgid`. -/
def ModeSetgid : Nat := 2 ^ 22

/-- The bit `os.ModeSticky`. -/
def ModeSticky : Nat := 2 ^ 20

/-- The bits of a mode that `os.Chmod` sets: the permission bits and
`ModeSetuid`, `ModeSetgid`, `ModeSticky`. -/
def chmodMask : Nat :=
  ModePerm ||| ModeSetuid ||| ModeSetgid ||| ModeSticky

/-- An entry of the file system: its mode as `os.Stat` reports it and the
bytes it holds. -/
structure Entry where
  mode : Nat
  data : List UInt8
deriving DecidableEq, Repr

/-- The file system: the entry behind each resolved name, if any. -/
abbrev FileSystem := String → Option Entry

/-- The file system with the entry of `name` replaced. -/
def FileSystem.set (fs : FileSystem) (name : String) (e : Entry) : FileSystem :=
  fun p => if p = name then some e else fs p

/-- What else decides the outcome of the system calls: the errors of
`os.Stat`, `os.Open`, `os.Create` and `os.Chmod` on a name that are not due
to the entries themselves (permissions, a missing directory), an error of
`io.Copy` after a number of bytes, and the umask of the process. -/
structure Faults where
  statErr : String → Option PathError
  openErr : String → Option String
  createErr : String → Option String
  copyErr : Option (Nat × String)
  chmodErr : String → Option String
  umask : Nat

/-- The function `os.Stat` on the file system. -/
def Stat (fl : Faults) (fs : FileSystem) (name : String) : Except PathError FileInfo :=
  match fl.statErr name with
  | some err => Except.error err
  | none =>
    match fs name with
    | none =>
      Except.error { msg := "stat " ++ name ++ ": no such file or directory", notExist := true }
    | some e => Except.ok { mode := e.mode, size := e.data.length }

/-- The function `os.Create`: an existing entry is truncated and keeps its
mode, a missing one is created empty with the mode `0666` less the umask; a
directory cannot be opened for writing. -/
def Create (fl : Faults) (fs : FileSystem) (name : String) : Except String FileSystem :=
  match fl.createErr name with
  | some err => Except.error err
  | none =>
    match fs name with
    | some e =>
      if e.mode &&& ModeDir != 0 then Except.error ("open " ++ name ++ ": is a directory")
      else Except.ok (fs.set name { e with data := [] })
    | none =>
      Except.ok (fs.set name
        { mode := 0o666 &&& (ModePerm ^^^ (fl.umask &&& ModePerm)), data := [] })

/-- The call `io.Copy(dstFile, srcFile)` on the two open files, with
`dstFile` just created: the bytes the source holds at that moment are
written to the destination; the error and the file system afterwards. -/
def Copy (fl : Faults) (fs : FileSystem) (src dst : String) : Option String × FileSystem :=
  let bytes := match fs src with
    | some s => s.data
    | none => []
  match fs dst with
  | none => (some ("write " ++ dst ++ ": bad file descriptor"), fs)
  | some d =>
    match fl.copyErr with
    | some (n, err) => (some err, fs.set dst { d with data := bytes.take n })
    | none => (none, fs.set dst { d with data := bytes })

/-- The function `os.Chmod`: the bits of `chmodMask` are taken from `mode`,
the type of the entry stays. -/
def Chmod (fl : Faults) (fs : FileSystem) (name : String) (mode : Nat) :
    Except String FileSystem :=
  match fl.chmodErr name with
  | some err => Except.error err
  | none =>
    match fs name with
    | none => Except.error ("chmod " ++ name ++ ": no such file or directory")
    | some e =>
      Except.ok (fs.set name { e with mode := (e.mode &&& ModeType) ||| (mode &&& chmodMask) })

end os

namespace util

/-- The function `CopyFile` of `internal/util/file.go`: the returned error
(`none` is nil) and the file system afterwards. -/
def CopyFile (fl : os.Faults) (fs : os.FileSystem) (src dst : String) :
    Option String × os.FileSystem :=
  match os.Stat fl fs src with
  | Except.error err => (some ("stat source: " ++ err.msg), fs)
  | Except.ok srcInfo =>
    if !os.IsRegular srcInfo.mode then
      (some "source is not a regular file", fs)
    else
      match fl.openErr src with
      | some err => (some ("open source: " ++ err), fs)
      | none =>
        match os.Create fl fs dst with
        | Except.error err => (some ("create destination: " ++ err), fs)
        | Except.ok fs1 =>
          match os.Copy fl fs1 src dst with
          | (some err, fs2) => (some ("copy contents: " ++ err), fs2)
          | (none, fs2) =>
            match os.Chmod fl fs2 dst srcInfo.mode with
            | Except.error err => (some ("chmod destination: " ++ err), fs2)
            | Except.ok fs3 => (none, fs3)

end util

/-! ## Scan errors: `malice/errors` -/

namespace errors

/-- An `error` value handed to `NewScanError`, by the text of its
`Error()`. -/
structure GoError where
  message : String
deriving DecidableEq, Repr

/-- The struct `ScanError`. The `error` field `Err` may be nil (`none`); the
map `Context` is given by its entries, the values by their text. -/
structure ScanError where
  Stage : String
  File : String
  Code : String
  Message : String
  Err : Option GoError
  Context : List (String × String)
deriving DecidableEq, Repr

/-- The method `ScanError.Error`: the formats `[%s/%s] %s: %v` and
`[%s/%s] %s`. -/
def ScanError.Error (e : ScanError) : String :=
  match e.Err with
  | some err => "[" ++ e.Stage ++ "/" ++ e.Code ++ "] " ++ e.Message ++ ": " ++ err.message
  | none => "[" ++ e.Stage ++ "/" ++ e.Code ++ "] " ++ e.Message

/-- The method `ScanError.Unwrap`. -/
def ScanError.Unwrap (e : ScanError) : Option GoError :=
  e.Err

/-- The function `NewScanError`; the field `File` keeps its zero value. -/
def NewScanError (stage code message : String) (err : Option GoError) : ScanError :=
  { Stage := stage, File := "", Code := code, Message := message, Err := err, Context := [] }

end errors

/-! ## The API server: global middlewares

A handler acts on the state `W` of everything it can touch: the response
writer, the request, the logs. -/

namespace server

/-- The struct `Config`, without its TLS configuration. -/
structure Config where
  Logging : Bool
  EnableCors : Bool
  CorsHeaders : String
  Version : String
  SocketGroup : String
deriving DecidableEq, Repr

/-- The struct `Server`: its configuration and its middlewares. -/
structure Server (W : Type) where
  cfg : Config
  middlewares : List (W → W)

/-- The function `New`. -/
def New {W : Type} (cfg : Config) : Server W :=
  { cfg := cfg, middlewares := [] }

/-- The method `UseMiddleware`. -/
def Server.UseMiddleware {W : Type} (s : Server W) (m : W → W) : Server W :=
  { s with middlewares := s.middlewares ++ [m] }

/-- The method `handlerWithGlobalMiddlewares`: `debugLevel` tells whether
`logrus.GetLevel()` is `DebugLevel`, `debugf` is the effect of the call of
`logrus.Debugf`. -/
def Server.handlerWithGlobalMiddlewares {W : Type} (s : Server W) (debugLevel : Bool)
    (debugf : W → W) (handler : W → W) : W → W :=
  let next := s.middlewares.foldl (fun h mw => fun w => h (mw w)) handler
  if s.cfg.Logging && debugLevel then fun w => next (debugf w) else next

/-- A handler that only leaves its name in a record of invocations. -/
def recorder (name : String) : List String → List String :=
  fun tr => tr ++ [name]

/-- A configuration with logging switched off. -/
def quietConfig : Config :=
  { Logging := false, EnableCors := false, CorsHeaders := "", Version := "0.4.0",
    SocketGroup := "" }

end server

/-! ## Runs of the connection pool -/

namespace espool

/-- A call on a pool. -/
inductive Op where
  | Init (db : Option Database)
  | Get
  | Reset
deriving DecidableEq, Repr

/-- The state after a call; `Get` only reads. -/
def Pool.apply (dbInit : Connector) (s : State) : Op → State
  | Op.Init db => (Pool.Init dbInit s db).2
  | Op.Get => s
  | Op.Reset => Pool.Reset s

/-- The state after a sequence of calls. -/
def Pool.runOps (dbInit : Connector) (s : State) (ops : List Op) : State :=
  ops.foldl (Pool.apply dbInit) s

end espool

namespace espool

/-- The pool is Uninitialized: no handle, no error, initialization not run. -/
def Pool.IsUninitialized (p : Pool) : Prop :=
  p.client = none ∧ p.err = none ∧ p.once = false

/-- The pool is Ready: a handle, no error, initialization run. -/
def Pool.IsReady (p : Pool) : Prop :=
  (∃ d, p.client = some d) ∧ p.err = none ∧ p.once = true

/-- The pool is Failed: no handle, an error, initialization run. -/
def Pool.IsFailed (p : Pool) : Prop :=
  p.client = none ∧ (∃ e, p.err = some e) ∧ p.once = true

end espool

/-! ## Sample files -/

namespace util

/-- System calls that fail only for what the file system holds, with the
usual umask `022`. -/
def noFaults : os.Faults where
  statErr := fun _ => none
  openErr := fun _ => none
  createErr := fun _ => none
  copyErr := none
  chmodErr := fun _ => none
  umask := 0o022

/-- The files of `TestCopyFile`: the directory `/tmp` and the file
`/tmp/source.txt` with the bytes of `test content` and the mode `0755`. -/
def testFiles : os.FileSystem := fun p =>
  if p = "/tmp/source.txt" then
    some { mode := 0o755, data := [116, 101, 115, 116, 32, 99, 111, 110, 116, 101, 110, 116] }
  else if p = "/tmp" then some { mode := os.ModeDir ||| 0o755, data := [] }
  else none

end util

/-! ## `os.Stat` on a table of files

The way `os.Stat` answers for a name: it goes through the directories on
the way to it. A missing directory or a missing last element is reported as
not existing (`ENOENT`); an element on the way that exists and is no
directory is reported as `not a directory` (`ENOTDIR`), of which
`os.IsNotExist` does not hold. -/

namespace os

/-- The method `FileMode.IsDir`. -/
def IsDir (mode : Nat) : Bool :=
  mode &&& ModeDir != 0

/-- The names on the way to a cleaned rooted path, from the top, without
the root and without the path itself: for `/a/b/c` they are `/a` and
`/a/b`. -/
def ancestors (path : String) : List String :=
  (List.range (filepath.components path).length).tail.map fun n =>
    String.mk ('/' :: filepath.joinSep ((filepath.components path).take n))

/-- The answer of `os.Stat` for `name` once the names `way` on the way to it
are gone through. -/
def statWalk (fs : FileSystem) (name : String) : List String → Except PathError FileInfo
  | [] =>
    match fs name with
    | some e => Except.ok { mode := e.mode, size := e.data.length }
    | none =>
      Except.error { msg := "stat " ++ name ++ ": no such file or directory", notExist := true }
  | a :: way =>
    match fs a with
    | none =>
      Except.error { msg := "stat " ++ name ++ ": no such file or directory", notExist := true }
    | some e =>
      if IsDir e.mode then statWalk fs name way
      else Except.error { msg := "stat " ++ name ++ ": not a directory", notExist := false }

/-- The system calls of a machine given by its working directory and its
files. -/
def System.ofFiles (getwd : Except String String) (fs : FileSystem) : System where
  getwd := getwd
  stat := fun name => statWalk fs name (ancestors name)

end os

namespace commands

/-- The files of `sampleSystem`: the directory `/tmp` and the 12-byte
regular file `/tmp/test.bin`. -/
def sampleFiles : os.FileSystem := fun p =>
  if p = "/tmp" then some { mode := os.ModeDir ||| 0o755, data := [] }
  else if p = "/tmp/test.bin" then
    some { mode := 0o644, data := [116, 101, 115, 116, 32, 99, 111, 110, 116, 101, 110, 116] }
  else none

end commands

/-! ## The connection pool -/

namespace espool

/-- A store that is up: every connection attempt succeeds. -/
def alwaysUp : Connector := fun _ _ => none

/-- A store that is down: every connection attempt is refused. -/
def alwaysDown : Connector := fun _ _ => some "connection refused"

/-- The first configuration of `TestPoolInit`. -/
def db1 : Database := { URL := "http://localhost:9200", Index := "test1" }

/-- The second configuration of `TestPoolInit`. -/
def db2 : Database := { URL := "http://localhost:9201", Index := "test2" }

/-- Once the `sync.Once` has fired, `Init` returns nil and changes nothing. -/
theorem Init_of_once (dbInit : Connector) (s : State) (db : Option Database)
    (h : s.pool.once = true) : Pool.Init dbInit s db = (none, s) := by
  simp [Pool.Init, h]

/-- Every `Init` call leaves the `sync.Once` fired. -/
theorem Init_sets_once (dbInit : Connector) (s : State) (db : Option Database) :
    (Pool.Init dbInit s db).2.pool.once = true := by
  unfold Pool.Init
  split
  · assumption
  · cases db with
    | none => rfl
    | some d =>
      simp only
      cases dbInit s.calls d <;> rfl

/-- A run of `Init` calls on a pool whose `sync.Once` has fired returns nil
every time and changes nothing. -/
theorem initAll_of_once (dbInit : Connector) (s : State) (h : s.pool.once = true)
    (cs : List (Option Database)) :
    initAll dbInit s cs = (List.replicate cs.length none, s) := by
  induction cs with
  | nil => rfl
  | cons c cs ih => simp [initAll, Init_of_once dbInit s c h, ih, List.replicate_succ]

/-- A run of `Init` calls after a first one: the later calls return nil and
the state is the one the first call left. -/
theorem initAll_cons (dbInit : Connector) (s : State) (c : Option Database)
    (cs : List (Option Database)) :
    initAll dbInit s (c :: cs) =
      ((Pool.Init dbInit s c).1 :: List.replicate cs.length none,
        (Pool.Init dbInit s c).2) := by
  simp [initAll, initAll_of_once dbInit _ (Init_sets_once dbInit s c) cs]

/-- The connection attempts made by the first `Init` on a fresh pool. -/
theorem Init_fresh_calls (dbInit : Connector) (c : Option Database) :
    (Pool.Init dbInit fresh c).2.calls = c.toList := by
  cases c with
  | none => rfl
  | some d =>
    simp only [Pool.Init, fresh]
    cases dbInit [] d <;> rfl

/-- C1: for every non-empty sequence `c :: cs` of `Init` calls on a fresh
pool, with any mix of valid and nil configurations, `db.Init` is invoked at
most once in total and only on the configuration of the first call: the
record of invocations is empty when `c` is nil and is `[d]` when `c` is the
configuration `d`. -/
theorem init_connects_at_most_once (dbInit : Connector) (c : Option Database)
    (cs : List (Option Database)) :
    (initAll dbInit fresh (c :: cs)).2.calls.length ≤ 1 ∧
      (∀ d ∈ (initAll dbInit fresh (c :: cs)).2.calls, c = some d) ∧
      (initAll dbInit fresh (c :: cs)).2.calls = c.toList := by
  rw [initAll_cons]
  simp only [Init_fresh_calls]
  cases c <;> simp

/-- C2: what the code does when the first call fails. With the store down,
`Init(db1)` on a fresh pool returns the connection error and the following
`Init(db2)` returns nil; likewise after `Init(nil)` returned
`ErrNilDatabase`, `Init(db1)` and `Init(db2)` return nil. In both runs `Get`
still reports the recorded error. -/
theorem init_after_failed_init_returns_nil :
    (initAll alwaysDown fresh [some db1, some db2]).1 =
        [some (Error.external "connection refused"), none] ∧
      Pool.Get (initAll alwaysDown fresh [some db1, some db2]).2.pool =
        (none, some (Error.external "connection refused")) ∧
      (initAll alwaysUp fresh [none, some db1, some db2]).1 =
        [some ErrNilDatabase, none, none] ∧
      Pool.Get (initAll alwaysUp fresh [none, some db1, some db2]).2.pool =
        (none, some ErrNilDatabase) := by
  decide

/-- C3: what the code does when `Init(nil)` is not the first call on the
pool. On a pool that `Init(db1)` initialized successfully, `Init(nil)`
returns nil, not `ErrNilDatabase`; likewise on a pool whose `Init(db1)`
failed with a connection error. Only as the first call, on a fresh pool,
does `Init(nil)` return `ErrNilDatabase`. -/
theorem init_nil_on_ready_pool_returns_nil :
    (Pool.Init alwaysUp fresh (some db1)).1 = none ∧
      (Pool.Init alwaysUp (Pool.Init alwaysUp fresh (some db1)).2 none).1 = none ∧
      (Pool.Init alwaysUp (Pool.Init alwaysUp fresh (some db1)).2 none).1 ≠
        some ErrNilDatabase ∧
      (Pool.Init alwaysDown fresh (some db1)).1 =
        some (Error.external "connection refused") ∧
      (Pool.Init alwaysDown (Pool.Init alwaysDown fresh (some db1)).2 none).1 = none ∧
      (Pool.Init alwaysUp fresh none).1 = some ErrNilDatabase := by
  decide

/-- As the first call on a pool (a fresh pool or one just reset), `Init(nil)`
returns `ErrNilDatabase` and records it, so that `Get` reports it, without
any connection attempt. -/
theorem Init_nil_first (dbInit : Connector) (s : State) (ho : s.pool.once = false) :
    (Pool.Init dbInit s none).1 = some ErrNilDatabase ∧
      (Pool.Init dbInit s none).2.pool.err = some ErrNilDatabase ∧
      Pool.Get (Pool.Init dbInit s none).2.pool = (none, some ErrNilDatabase) ∧
      (Pool.Init dbInit s none).2.calls = s.calls := by
  simp [Pool.Init, ho, Pool.Get]

/-- The error returned by the first `Init` on a pool is the error the pool
records. -/
theorem Init_records_error (dbInit : Connector) (s : State) (c : Option Database)
    (e : Error) (h : (Pool.Init dbInit s c).1 = some e) :
    (Pool.Init dbInit s c).2.pool.err = some e ∧ e ≠ ErrNotInitialized := by
  unfold Pool.Init at h ⊢
  split at h
  · simp at h
  · rename_i ho
    rw [if_neg ho]
    cases c with
    | none =>
      simp only [Option.some.injEq] at h
      subst h
      exact ⟨rfl, by decide⟩
    | some d =>
      simp only at h ⊢
      cases hd : dbInit s.calls d with
      | none => simp [hd] at h
      | some msg =>
        simp only [hd, Option.some.injEq] at h ⊢
        subst h
        exact ⟨rfl, by simp [ErrNotInitialized]⟩

/-- C4: when the first `Init` on a fresh pool fails with the error `e` (a nil
configuration or a failing connection), then after any further `Init` calls
`cs`, whatever their configurations, `Get` returns no handle and exactly
`e`, which is not `ErrNotInitialized`. -/
theorem failed_init_is_sticky (dbInit : Connector) (c : Option Database) (e : Error)
    (cs : List (Option Database)) (h : (Pool.Init dbInit fresh c).1 = some e) :
    Pool.Get (initAll dbInit (Pool.Init dbInit fresh c).2 cs).2.pool = (none, some e) ∧
      e ≠ ErrNotInitialized := by
  rw [initAll_of_once dbInit _ (Init_sets_once dbInit fresh c) cs]
  obtain ⟨hrec, hne⟩ := Init_records_error dbInit fresh c e h
  exact ⟨by simp [Pool.Get, hrec], hne⟩

/-- Witness of `failed_init_is_sticky`: `Init(nil)`, then `Init(db1)` and
`Init(db2)` against a store that is up. -/
theorem failed_init_is_sticky_witness :
    (Pool.Init alwaysUp fresh none).1 = some ErrNilDatabase ∧
      Pool.Get (initAll alwaysUp (Pool.Init alwaysUp fresh none).2
        [some db1, some db2]).2.pool = (none, some ErrNilDatabase) ∧
      ErrNilDatabase ≠ ErrNotInitialized :=
  ⟨rfl, failed_init_is_sticky alwaysUp none ErrNilDatabase [some db1, some db2] rfl⟩

/-- C5: `Get` on a pool on which no `Init` has been performed, a fresh pool
or the global pool right after `ResetGlobal`, returns no handle and the
error `ErrNotInitialized`. -/
theorem get_before_init (g : State) :
    Pool.Get fresh.pool = (none, some ErrNotInitialized) ∧
      GetGlobal (ResetGlobal g) = (none, some ErrNotInitialized) :=
  ⟨rfl, rfl⟩

/-- C6: when the first `Init(db1)` on a fresh pool succeeds, `Get` returns
the handle `db1` and no error, right after it and after any further `Init`
calls `cs` with other configurations or nil. -/
theorem ready_handle_is_sticky (dbInit : Connector) (d : Database)
    (cs : List (Option Database)) (h : (Pool.Init dbInit fresh (some d)).1 = none) :
    Pool.Get (Pool.Init dbInit fresh (some d)).2.pool = (some d, none) ∧
      Pool.Get (initAll dbInit (Pool.Init dbInit fresh (some d)).2 cs).2.pool =
        (some d, none) := by
  rw [initAll_of_once dbInit _ (Init_sets_once dbInit fresh (some d)) cs]
  have hget : Pool.Get (Pool.Init dbInit fresh (some d)).2.pool = (some d, none) := by
    simp only [Pool.Init, fresh] at h ⊢
    cases hd : dbInit [] d with
    | none => simp [hd, Pool.Get]
    | some msg => simp [hd] at h
  exact ⟨hget, hget⟩

/-- Witness of `ready_handle_is_sticky`: `Init(db1)` against a store that is
up, then `Init(db2)` and `Init(nil)`. -/
theorem ready_handle_is_sticky_witness :
    (Pool.Init alwaysUp fresh (some db1)).1 = none ∧
      Pool.Get (Pool.Init alwaysUp fresh (some db1)).2.pool = (some db1, none) ∧
      Pool.Get (initAll alwaysUp (Pool.Init alwaysUp fresh (some db1)).2
        [some db2, none]).2.pool = (some db1, none) :=
  ⟨rfl, ready_handle_is_sticky alwaysUp db1 [some db2, none] rfl⟩

/-- C7: from every pool state `s`, `Reset` gives the zero-valued pool, on
which `Get` returns `ErrNotInitialized`; the next `Init` runs the
initialization again: for a configuration `d` it calls `d.Init()` once more
and returns its result, for nil it returns `ErrNilDatabase`; and the outcome
it returns is the one `Get` reports afterwards. -/
theorem reset_restores_uninitialized (dbInit : Connector) (s : State)
    (db : Option Database) :
    (Pool.Reset s).pool = fresh.pool ∧
      Pool.Get (Pool.Reset s).pool = (none, some ErrNotInitialized) ∧
      (Pool.Init dbInit (Pool.Reset s) db).2.calls = s.calls ++ db.toList ∧
      (Pool.Init dbInit (Pool.Reset s) db).1 =
        (match db with
          | none => some ErrNilDatabase
          | some d => (dbInit s.calls d).map Error.external) ∧
      Pool.Get (Pool.Init dbInit (Pool.Reset s) db).2.pool =
        (match (Pool.Init dbInit (Pool.Reset s) db).1 with
          | some e => (none, some e)
          | none => (db, none)) := by
  refine ⟨rfl, rfl, ?_, ?_, ?_⟩ <;> cases db with
  | none => simp [Pool.Init, Pool.Reset, Pool.Get]
  | some d =>
    simp only [Pool.Init, Pool.Reset]
    cases hd : dbInit s.calls d <;> simp [hd, Pool.Get]

end espool

/-! ## The path validator -/

namespace commands

/-- C8: for every path that resolves (`filepath.Abs` succeeds with `absPath`)
to an existing entry (`os.Stat` succeeds with `info`) that is a regular file
of size at most 512 MiB, `validateAndNormalizePath` returns no error. -/
theorem validate_accepts_regular_file (sys : os.System) (path absPath : String)
    (info : os.FileInfo) (hAbs : filepath.Abs sys.getwd path = Except.ok absPath)
    (hStat : sys.stat absPath = Except.ok info)
    (hReg : os.IsRegular info.mode = true)
    (hSize : info.size ≤ 512 * 1024 * 1024) :
    validateAndNormalizePath sys path = none := by
  have hle : ¬ info.size > maxFileSize := by
    simp only [maxFileSize]
    omega
  simp [validateAndNormalizePath, hAbs, hStat, hReg, hle]

/-- Witness of `validate_accepts_regular_file`: the relative path `test.bin`
in the working directory `/tmp`, a regular file of 12 bytes. -/
theorem validate_accepts_regular_file_witness :
    filepath.Abs sampleSystem.getwd "test.bin" = Except.ok "/tmp/test.bin" ∧
      sampleSystem.stat "/tmp/test.bin" = Except.ok { mode := 0o644, size := 12 } ∧
      validateAndNormalizePath sampleSystem "test.bin" = none :=
  ⟨rfl, rfl,
    validate_accepts_regular_file sampleSystem "test.bin" "/tmp/test.bin"
      { mode := 0o644, size := 12 } rfl rfl (by decide) (by decide)⟩

/-- C9: what the code does on the empty path in the working directory
`/tmp`: `filepath.Abs` succeeds with `/tmp`, a directory, so the error is
`path is not a regular file: `, whose message does not contain
`cannot resolve path`. -/
theorem validate_empty_path_is_not_resolution_error :
    filepath.Abs sampleSystem.getwd "" = Except.ok "/tmp" ∧
      validateAndNormalizePath sampleSystem "" = some "path is not a regular file: " ∧
      ¬ ("cannot resolve path".data <:+: "path is not a regular file: ".data) :=
  ⟨rfl, rfl, by decide⟩

/-- When `os.Stat` fails on the resolved path with an error of which
`os.IsNotExist` holds, `validateAndNormalizePath` fails with exactly the
error `file not found: ` followed by the path, whose message contains
`file not found`. -/
theorem validate_rejects_missing_file (sys : os.System) (path absPath : String)
    (err : os.PathError) (hAbs : filepath.Abs sys.getwd path = Except.ok absPath)
    (hStat : sys.stat absPath = Except.error err) (hNot : err.notExist = true) :
    validateAndNormalizePath sys path = some ("file not found: " ++ path) ∧
      "file not found".data <:+: ("file not found: " ++ path).data := by
  refine ⟨by simp [validateAndNormalizePath, hAbs, hStat, hNot], ?_⟩
  refine ⟨[], ':' :: ' ' :: path.data, ?_⟩
  simp [String.data_append]

/-- An instance of `validate_rejects_missing_file`: the path
`/tmp/nonexist.bin`, absent from the machine. -/
theorem validate_rejects_missing_file_witness :
    filepath.Abs sampleSystem.getwd "/tmp/nonexist.bin" = Except.ok "/tmp/nonexist.bin" ∧
      validateAndNormalizePath sampleSystem "/tmp/nonexist.bin" =
        some ("file not found: " ++ "/tmp/nonexist.bin") ∧
      "file not found".data <:+: ("file not found: " ++ "/tmp/nonexist.bin").data :=
  ⟨rfl,
    validate_rejects_missing_file sampleSystem "/tmp/nonexist.bin" "/tmp/nonexist.bin"
      { msg := "stat /tmp/nonexist.bin: no such file or directory", notExist := true }
      rfl rfl rfl⟩

end commands

namespace commands

/-- C11: for every path that resolves to an existing entry that is not a
regular file, `validateAndNormalizePath` fails with exactly the error
`path is not a regular file: ` followed by the path, whatever the size of
the entry; its message contains `not a regular file`. -/
theorem validate_rejects_non_regular (sys : os.System) (path absPath : String)
    (info : os.FileInfo) (hAbs : filepath.Abs sys.getwd path = Except.ok absPath)
    (hStat : sys.stat absPath = Except.ok info)
    (hReg : os.IsRegular info.mode = false) :
    validateAndNormalizePath sys path = some ("path is not a regular file: " ++ path) ∧
      "not a regular file".data <:+: ("path is not a regular file: " ++ path).data := by
  refine ⟨by simp [validateAndNormalizePath, hAbs, hStat, hReg], ?_⟩
  refine ⟨"path is ".data, ':' :: ' ' :: path.data, ?_⟩
  simp [String.data_append]

/-- Witness of `validate_rejects_non_regular`: the directory `/tmp`. -/
theorem validate_rejects_non_regular_witness :
    filepath.Abs sampleSystem.getwd "/tmp" = Except.ok "/tmp" ∧
      os.IsRegular (os.ModeDir ||| 0o755) = false ∧
      validateAndNormalizePath sampleSystem "/tmp" =
        some ("path is not a regular file: " ++ "/tmp") ∧
      "not a regular file".data <:+: ("path is not a regular file: " ++ "/tmp").data :=
  ⟨rfl, by decide,
    validate_rejects_non_regular sampleSystem "/tmp" "/tmp"
      { mode := os.ModeDir ||| 0o755, size := 4096 } rfl rfl (by decide)⟩

/-- C12: for every path that resolves to an existing regular file,
`validateAndNormalizePath` fails with the error `file too large: ...` when
the size is above 536870912 bytes and returns no error otherwise, so that it
fails with an error containing `file too large` if and only if the size is
strictly greater than 536870912; a file of exactly 536870912 bytes passes. -/
theorem validate_size_limit (sys : os.System) (path absPath : String)
    (info : os.FileInfo) (hAbs : filepath.Abs sys.getwd path = Except.ok absPath)
    (hStat : sys.stat absPath = Except.ok info)
    (hReg : os.IsRegular info.mode = true) :
    (536870912 < info.size →
        validateAndNormalizePath sys path =
          some ("file too large: " ++ toString info.size ++ " bytes (max: " ++
            toString (536870912 : Int) ++ ")")) ∧
      (info.size ≤ 536870912 → validateAndNormalizePath sys path = none) ∧
      ((∃ msg, validateAndNormalizePath sys path = some msg ∧
          "file too large".data <:+: msg.data) ↔ 536870912 < info.size) := by
  have hbig : 536870912 < info.size →
      validateAndNormalizePath sys path =
        some ("file too large: " ++ toString info.size ++ " bytes (max: " ++
          toString (536870912 : Int) ++ ")") := by
    intro h
    simp [validateAndNormalizePath, hAbs, hStat, hReg, maxFileSize, h]
  have hsmall : info.size ≤ 536870912 → validateAndNormalizePath sys path = none := by
    intro h
    have hle : ¬ info.size > maxFileSize := by
      simp only [maxFileSize]
      omega
    simp [validateAndNormalizePath, hAbs, hStat, hReg, hle]
  refine ⟨hbig, hsmall, ?_, ?_⟩
  · rintro ⟨msg, hmsg, -⟩
    by_contra hn
    rw [hsmall (by omega)] at hmsg
    exact Option.noConfusion hmsg
  · intro h
    refine ⟨_, hbig h, [], (':' :: ' ' :: (toString info.size).data) ++
      (" bytes (max: " ++ toString (536870912 : Int) ++ ")").data, ?_⟩
    simp [String.data_append]

/-- Witness of `validate_size_limit`: a file of 536870913 bytes is refused,
a file of 536870912 bytes passes. -/
theorem validate_size_limit_witness :
    filepath.Abs (sizeSystem 536870913).getwd "sample.bin" = Except.ok "/tmp/sample.bin" ∧
      validateAndNormalizePath (sizeSystem 536870913) "sample.bin" =
        some ("file too large: " ++ toString (536870913 : Int) ++ " bytes (max: " ++
          toString (536870912 : Int) ++ ")") ∧
      validateAndNormalizePath (sizeSystem 536870912) "sample.bin" = none :=
  ⟨rfl,
    (validate_size_limit (sizeSystem 536870913) "sample.bin" "/tmp/sample.bin"
      { mode := 0o644, size := 536870913 } rfl rfl (by decide)).1 (by decide),
    (validate_size_limit (sizeSystem 536870912) "sample.bin" "/tmp/sample.bin"
      { mode := 0o644, size := 536870912 } rfl rfl (by decide)).2.1 (by decide)⟩

end commands

/-! ## The scan command -/

namespace commands

/-- The removals recorded in a trace followed by another. -/
theorem removedIds_append (tr tr2 : List Effect) :
    removedIds (tr ++ tr2) = removedIds tr ++ removedIds tr2 := by
  simp [removedIds, List.filterMap_append]

/-- The clean-up loop calls `container.Remove` on the containers named
`malice`, in list order, whatever the removals answer. -/
theorem removedIds_removeStale (rt : Runtime) (cs : List Container) (tr : List Effect) :
    removedIds (removeStale rt cs tr) =
      removedIds tr ++ (cs.filter fun c => "malice" ∈ c.Names).map (fun c => c.ID) := by
  induction cs generalizing tr with
  | nil => simp [removeStale]
  | cons c cs ih =>
    unfold removeStale
    by_cases hc : "malice" ∈ c.Names
    · rw [if_pos hc]
      cases hr : rt.remove tr c.ID with
      | none =>
        have h1 : removedIds [Effect.removeContainer c.ID] = [c.ID] := rfl
        simp only [ih, removedIds_append, h1]
        simp [List.filter_cons, hc]
      | some err =>
        have h2 : removedIds [Effect.removeContainer c.ID,
            Effect.warn ("failed to remove stale container: " ++ c.Names.headD "") err] =
            [c.ID] := rfl
        simp only [ih, removedIds_append, h2]
        simp [List.filter_cons, hc]
    · rw [if_neg hc, ih]
      simp [List.filter_cons, hc]

/-- From `es.Init()` on, no container is removed and `es.Init()` is
called. -/
theorem registerAndDetect_trace (rt : Runtime) (b : Bool) (tr : List Effect) :
    removedIds (registerAndDetect rt b tr).2 = removedIds tr ∧
      Effect.esInit ∈ (registerAndDetect rt b tr).2 := by
  unfold registerAndDetect
  cases rt.storeFileInfo <;> cases rt.mimeType <;> cases rt.pluginsInstalled <;>
    cases rt.confirm <;> simp [removedIds_append, removedIds]

/-- After the clean-up loop no container is removed, and the scan goes on to
`container.Running` or to `es.Init()`. -/
theorem ensureDatabase_trace (rt : Runtime) (tr : List Effect) :
    removedIds (ensureDatabase rt tr).2 = removedIds tr ∧
      (Effect.containerRunning ∈ (ensureDatabase rt tr).2 ∨
        Effect.esInit ∈ (ensureDatabase rt tr).2) := by
  unfold ensureDatabase
  by_cases hl : rt.equalFold rt.esURL "http://localhost:9200" = true
  · simp only [hl, if_true]
    by_cases hr : rt.running = true
    · have h := registerAndDetect_trace rt true (tr ++ [Effect.containerRunning])
      simp only [hr, Bool.not_true, Bool.false_eq_true, if_false]
      exact ⟨by rw [h.1]; simp [removedIds_append, removedIds], Or.inr h.2⟩
    · simp only [Bool.not_eq_true] at hr
      simp only [hr, Bool.not_false, if_true]
      cases hs : rt.startDatabase with
      | some err => simp [removedIds_append, removedIds]
      | none =>
        have h := registerAndDetect_trace rt true
          (tr ++ [Effect.containerRunning] ++ [Effect.databaseStart])
        exact ⟨by rw [h.1]; simp [removedIds_append, removedIds], Or.inr h.2⟩
  · have h := registerAndDetect_trace rt false tr
    simp only [hl, Bool.false_eq_true, if_false]
    exact ⟨h.1, Or.inr h.2⟩

/-- C13: for every path that is empty or fails validation,
`cmdScanWithContext` returns an error and has made no call at all on the
runtime, the store or the plugins: no Docker client is created, no container
is listed or removed, nothing is stored and no worker is started. -/
theorem invalid_path_has_no_effect (rt : Runtime) (path : String)
    (h : path = "" ∨ validateAndNormalizePath rt.sys path ≠ none) :
    ∃ err, cmdScanWithContext rt path = (ScanResult.failed err, []) := by
  unfold cmdScanWithContext
  by_cases hp : path.length = 0
  · exact ⟨"file path required", by simp [hp]⟩
  · have hne : path ≠ "" := by
      intro he
      exact hp (by simp [he])
    have hv : validateAndNormalizePath rt.sys path ≠ none := h.resolve_left hne
    cases hval : validateAndNormalizePath rt.sys path with
    | none => exact absurd hval hv
    | some err => exact ⟨err, by simp [hp]⟩

/-- Witness of `invalid_path_has_no_effect`: the empty path, and a path with
no file behind it. -/
theorem invalid_path_has_no_effect_witness :
    (∃ err, cmdScanWithContext (sampleRuntime none) "" = (ScanResult.failed err, [])) ∧
      validateAndNormalizePath (sampleRuntime none).sys "/tmp/nonexist.bin" ≠ none ∧
      (∃ err, cmdScanWithContext (sampleRuntime none) "/tmp/nonexist.bin" =
        (ScanResult.failed err, [])) :=
  ⟨invalid_path_has_no_effect (sampleRuntime none) "" (Or.inl rfl), by decide,
    invalid_path_has_no_effect (sampleRuntime none) "/tmp/nonexist.bin" (Or.inr (by decide))⟩

end commands

namespace commands

/-- The clean-up loop makes no call that belongs to the later stages. -/
theorem any_isDownstream_removeStale (rt : Runtime) (cs : List Container)
    (tr : List Effect) :
    (removeStale rt cs tr).any Effect.isDownstream = tr.any Effect.isDownstream := by
  induction cs generalizing tr with
  | nil => simp [removeStale]
  | cons c cs ih =>
    unfold removeStale
    by_cases hc : "malice" ∈ c.Names
    · rw [if_pos hc]
      cases hr : rt.remove tr c.ID <;> simp [ih, List.any_append, Effect.isDownstream]
    · rw [if_neg hc, ih]

/-- The clean-up loop does not depend on the outcome of the copy. -/
theorem removeStale_copy (rt : Runtime) (copy : Option String) (cs : List Container)
    (tr : List Effect) :
    removeStale { rt with copyToVolume := copy } cs tr = removeStale rt cs tr := by
  induction cs generalizing tr with
  | nil => simp [removeStale]
  | cons c cs ih =>
    unfold removeStale
    by_cases hc : "malice" ∈ c.Names
    · rw [if_pos hc, if_pos hc]
      cases hr : rt.remove tr c.ID <;> simp [hr, ih]
    · rw [if_neg hc, if_neg hc, ih]

/-- When the store refuses the sample metadata, the statements after the
clean-up loop end in an error and add no call of the later stages. -/
theorem ensureDatabase_store_fails (rt : Runtime) (tr : List Effect) (e : String)
    (h : rt.storeFileInfo = Except.error e) :
    (∃ err, (ensureDatabase rt tr).1 = ScanResult.failed err) ∧
      (ensureDatabase rt tr).2.any Effect.isDownstream = tr.any Effect.isDownstream := by
  unfold ensureDatabase registerAndDetect
  cases rt.equalFold rt.esURL "http://localhost:9200" <;> cases rt.running <;>
    cases rt.startDatabase <;> cases rt.pluginsInstalled <;> cases rt.confirm <;>
    simp [h, List.any_append, Effect.isDownstream]

/-- C17, as stated, fails: in a run where the copy of the sample into the
volume fails and everything else works, `cmdScanWithContext` does not stop
with an error; it stores the metadata, runs the intel workers and the type
detection and reaches the dispatch of the analysis workers. -/
theorem copy_failure_does_not_abort :
    cmdScanWithContext (sampleRuntime (some "copy failed")) "test.bin" =
      (ScanResult.dispatch "9f86d081" "scan-1" false [{ Name := "yara" }],
        [Effect.newDockerClient, Effect.listContainers, Effect.removeContainer "c1",
          Effect.warn "failed to remove stale container: malice" "removal in progress",
          Effect.esInit, Effect.installedPluginsCheck, Effect.getPluginsByCategory,
          Effect.fileInit, Effect.toMarkdownTable, Effect.copyToVolume,
          Effect.storeFileInfo, Effect.runIntelPlugins, Effect.getMimeType,
          Effect.getPluginsForMime]) := by
  decide

/-- C17, amended: `cmdScanWithContext` does not look at the outcome of the
copy into the volume, it runs the same whether the copy failed or not; and
when persisting the sample metadata fails, it returns an error and makes
none of the later calls: no intel worker, no type detection, no query for
analysis workers, hence no dispatch. -/
theorem store_failure_aborts_scan (rt : Runtime) (path : String) :
    (∀ copy, cmdScanWithContext { rt with copyToVolume := copy } path =
        cmdScanWithContext rt path) ∧
      (∀ e, rt.storeFileInfo = Except.error e →
        (∃ err, (cmdScanWithContext rt path).1 = ScanResult.failed err) ∧
        Effect.runIntelPlugins ∉ (cmdScanWithContext rt path).2 ∧
        Effect.getMimeType ∉ (cmdScanWithContext rt path).2 ∧
        Effect.getPluginsForMime ∉ (cmdScanWithContext rt path).2) := by
  constructor
  · intro copy
    simp only [cmdScanWithContext, ensureDatabase, registerAndDetect, removeStale_copy]
  · intro e h
    have key : (∃ err, (cmdScanWithContext rt path).1 = ScanResult.failed err) ∧
        (cmdScanWithContext rt path).2.any Effect.isDownstream = false := by
      unfold cmdScanWithContext
      by_cases hp : path.length = 0
      · simp [hp]
      · rw [if_neg hp]
        cases hv : validateAndNormalizePath rt.sys path with
        | some err => simp
        | none =>
          cases hl : rt.list with
          | error err => simp [Effect.isDownstream]
          | ok cs =>
            have hd := ensureDatabase_store_fails rt
              (removeStale rt cs [Effect.newDockerClient, Effect.listContainers]) e h
            refine ⟨hd.1, ?_⟩
            simp only [hd.2, any_isDownstream_removeStale]
            simp [Effect.isDownstream]
    refine ⟨key.1, ?_, ?_, ?_⟩ <;>
    · intro hm
      have hany : (cmdScanWithContext rt path).2.any Effect.isDownstream = true :=
        List.any_eq_true.mpr ⟨_, hm, rfl⟩
      rw [key.2] at hany
      exact Bool.noConfusion hany

/-- Witness of `store_failure_aborts_scan`: the store refuses the metadata
of `test.bin`. -/
theorem store_failure_aborts_scan_witness :
    (cmdScanWithContext { sampleRuntime none with
        storeFileInfo := Except.error "index is read-only" } "test.bin").1 =
        ScanResult.failed "scan cmd failed to store file info: index is read-only" ∧
      Effect.runIntelPlugins ∉ (cmdScanWithContext { sampleRuntime none with
        storeFileInfo := Except.error "index is read-only" } "test.bin").2 :=
  ⟨by decide,
    ((store_failure_aborts_scan { sampleRuntime none with
        storeFileInfo := Except.error "index is read-only" } "test.bin").2
      "index is read-only" rfl).2.1⟩

/-- C19: for every list `cs` of existing containers and every outcome of the
`Remove` calls, `cmdScanWithContext` on a valid path does not return in the
clean-up loop: it goes on with the statements that follow the loop, it has
called `Remove` on exactly the containers named `malice`, in list order,
and it has reached the check of the store (`container.Running`) or, for an
external store, `es.Init()`. -/
theorem stale_removal_is_not_fatal (rt : Runtime) (path : String) (cs : List Container)
    (hp : path ≠ "") (hv : validateAndNormalizePath rt.sys path = none)
    (hl : rt.list = Except.ok cs) :
    cmdScanWithContext rt path =
        ensureDatabase rt (removeStale rt cs [Effect.newDockerClient, Effect.listContainers]) ∧
      removedIds (cmdScanWithContext rt path).2 =
        (cs.filter fun c => "malice" ∈ c.Names).map (fun c => c.ID) ∧
      (Effect.containerRunning ∈ (cmdScanWithContext rt path).2 ∨
        Effect.esInit ∈ (cmdScanWithContext rt path).2) := by
  have hlen : ¬ path.length = 0 := by
    intro h0
    exact hp (String.ext (List.length_eq_zero.mp h0))
  have heq : cmdScanWithContext rt path =
      ensureDatabase rt (removeStale rt cs [Effect.newDockerClient, Effect.listContainers]) := by
    simp [cmdScanWithContext, hlen, hv, hl]
  have ht := ensureDatabase_trace rt
    (removeStale rt cs [Effect.newDockerClient, Effect.listContainers])
  refine ⟨heq, ?_, ?_⟩
  · rw [heq, ht.1, removedIds_removeStale]
    simp [removedIds]
  · rw [heq]
    exact ht.2

/-- Witness of `stale_removal_is_not_fatal`: the removal of the stale
container `c1` fails and the scan of `test.bin` goes on. -/
theorem stale_removal_is_not_fatal_witness :
    validateAndNormalizePath (sampleRuntime none).sys "test.bin" = none ∧
      (sampleRuntime none).remove [Effect.newDockerClient, Effect.listContainers] "c1" =
        some "removal in progress" ∧
      removedIds (cmdScanWithContext (sampleRuntime none) "test.bin").2 = ["c1"] ∧
      (Effect.containerRunning ∈ (cmdScanWithContext (sampleRuntime none) "test.bin").2 ∨
        Effect.esInit ∈ (cmdScanWithContext (sampleRuntime none) "test.bin").2) :=
  ⟨rfl, rfl,
    (stale_removal_is_not_fatal (sampleRuntime none) "test.bin"
      [{ ID := "c1", Names := ["malice"] }, { ID := "c2", Names := ["elastic"] }]
      (by decide) rfl rfl).2⟩

end commands

/-! ## The worker dispatch -/

namespace commands

/-- Replacing the state of one worker moves one unit between the counts of
the two states. -/
theorem count_set_of_get (l : List Worker) (i : Nat) (a c b : Worker)
    (h : l.get? i = some a) :
    (l.set i c).count b + (if a = b then 1 else 0) =
      l.count b + (if c = b then 1 else 0) := by
  induction l generalizing i with
  | nil => simp at h
  | cons x xs ih =>
    cases i with
    | zero =>
      simp only [List.get?_cons_zero, Option.some.injEq] at h
      subst h
      simp only [List.set_cons_zero, List.count_cons, beq_iff_eq]
      omega
    | succ n =>
      simp only [List.get?_cons_succ] at h
      have := ih n h
      simp only [List.set_cons_succ, List.count_cons, beq_iff_eq]
      omega

/-- A schedule in two parts. -/
theorem run_append (s : RunState) (es fs : List Event) :
    s.run (es ++ fs) = (s.run es).run fs := by
  induction es generalizing s with
  | nil => rfl
  | cons e es ih => simp [RunState.run, ih]

/-- The state after the `for` loop is consistent. -/
theorem init_consistent (ctx : Option CtxErr) (plugins : List Plugin) :
    (RunState.init ctx plugins).Consistent := by
  simp [RunState.Consistent, RunState.init, List.count_replicate]

end commands

namespace commands

/-- A worker that sends its error and leaves keeps the state consistent. -/
theorem sendAndLeave_consistent (s s' : RunState) (i : Nat) (err : RunError) (a : Worker)
    (r : Nat) (hs : s.Consistent) (hget : s.workers.get? i = some a)
    (ha : (a = Worker.waiting ∧ r = 0) ∨ (a = Worker.running ∧ r = 1))
    (h : s.sendAndLeave i err r = some s') : s'.Consistent := by
  obtain ⟨h1, h2, h3, h4, h5⟩ := hs
  have hwp := count_set_of_get s.workers i a Worker.panicked Worker.waiting hget
  have hrp := count_set_of_get s.workers i a Worker.panicked Worker.running hget
  have hwf := count_set_of_get s.workers i a Worker.finished Worker.waiting hget
  have hrf := count_set_of_get s.workers i a Worker.finished Worker.running hget
  unfold RunState.sendAndLeave at h
  split at h
  · cases h
    refine ⟨?_, ?_, ?_, ?_, h5⟩
    · rcases ha with ⟨rfl, rfl⟩ | ⟨rfl, rfl⟩ <;> simp at hwp hrp ⊢ <;> omega
    · simp only
      omega
    · rcases ha with ⟨rfl, rfl⟩ | ⟨rfl, rfl⟩ <;> simp at hwp hrp ⊢ <;> omega
    · intro hd
      have := h4 hd
      simp only
      omega
  · split at h
    · cases h
      refine ⟨?_, ?_, ?_, ?_, h5⟩
      · rcases ha with ⟨rfl, rfl⟩ | ⟨rfl, rfl⟩ <;> simp at hwf hrf ⊢ <;> omega
      · simp only
        omega
      · rcases ha with ⟨rfl, rfl⟩ | ⟨rfl, rfl⟩ <;> simp at hwf hrf ⊢ <;> omega
      · intro hd
        have := h4 hd
        simp only
        omega
    · cases h

/-- Every step of a live process keeps the state consistent. -/
theorem act_consistent (s s' : RunState) (e : Event) (hs : s.Consistent)
    (h : s.act e = some s') : s'.Consistent := by
  cases e with
  | deadline =>
    simp only [RunState.act] at h
    split at h
    · cases h
      exact hs
    · cases h
  | cancel =>
    simp only [RunState.act] at h
    split at h
    · cases h
      exact hs
    · cases h
  | acquire i =>
    simp only [RunState.act] at h
    split at h
    · rename_i hget
      obtain ⟨h1, h2, h3, h4, h5⟩ := hs
      have hwp := count_set_of_get s.workers i _ Worker.panicked Worker.waiting hget
      have hrp := count_set_of_get s.workers i _ Worker.panicked Worker.running hget
      have hwr := count_set_of_get s.workers i _ Worker.running Worker.waiting hget
      have hrr := count_set_of_get s.workers i _ Worker.running Worker.running hget
      simp at hwp hrp hwr hrr
      split at h
      · cases h
        refine ⟨?_, h2, ?_, ?_, h5⟩
        · simp only
          omega
        · simp only
          omega
        · intro hd
          have := h4 hd
          simp only
          omega
      · split at h
        · rename_i hlt
          cases h
          refine ⟨?_, ?_, ?_, ?_, h5⟩
          · simp only
            omega
          · simp only
            omega
          · simp only
            omega
          · intro hd
            have := h4 hd
            simp only
            omega
        · cases h
    · cases h
  | giveUp i =>
    simp only [RunState.act] at h
    split at h
    · rename_i hget
      split at h
      · exact sendAndLeave_consistent s s' i _ _ 0 hs hget (Or.inl ⟨rfl, rfl⟩) h
      · cases h
    · cases h
  | finish i slow =>
    simp only [RunState.act] at h
    split at h
    · rename_i hget
      split at h
      · exact sendAndLeave_consistent s s' i _ _ 1 hs hget (Or.inr ⟨rfl, rfl⟩) h
      · obtain ⟨h1, h2, h3, h4, h5⟩ := hs
        have hwf := count_set_of_get s.workers i _ Worker.finished Worker.waiting hget
        have hrf := count_set_of_get s.workers i _ Worker.finished Worker.running hget
        simp at hwf hrf
        cases h
        refine ⟨?_, ?_, ?_, ?_, h5⟩
        · simp only
          omega
        · simp only
          omega
        · simp only
          omega
        · intro hd
          have := h4 hd
          simp only
          omega
    · cases h
  | waitReturns =>
    simp only [RunState.act] at h
    split at h
    · rename_i hw
      cases h
      obtain ⟨h1, h2, h3, h4, h5⟩ := hs
      exact ⟨h1, h2, h3, fun _ => hw.1, h5⟩
    · cases h
  | mainDone =>
    simp only [RunState.act] at h
    obtain ⟨h1, h2, h3, h4, h5⟩ := hs
    split at h
    · split at h <;>
      · cases h
        exact ⟨h1, h2, h3, h4, fun hm => Main.noConfusion hm,
          fun r hm => Main.noConfusion hm, fun r hm => Main.noConfusion hm⟩
    · cases h
  | mainCtx =>
    simp only [RunState.act] at h
    obtain ⟨h1, h2, h3, h4, h5⟩ := hs
    split at h
    · split at h
      · cases h
        exact ⟨h1, h2, h3, h4, fun hm => Main.noConfusion hm,
          fun r hm => Main.noConfusion hm, fun r hm => Main.noConfusion hm⟩
      · cases h
    · cases h
  | deferCloseErrors =>
    simp only [RunState.act] at h
    obtain ⟨h1, h2, h3, h4, h5⟩ := hs
    split at h
    · split at h <;>
      · cases h
        exact ⟨h1, h2, h3, h4, fun hm => Main.noConfusion hm,
          fun r hm => by first | exact Main.noConfusion hm | rfl,
          fun r hm => Main.noConfusion hm⟩
    · cases h
  | deferCloseSem =>
    simp only [RunState.act] at h
    obtain ⟨h1, h2, h3, h4, h5⟩ := hs
    split at h
    · rename_i ret hmain
      split at h
      · cases h
        exact ⟨h1, h2, h3, h4, fun hm => Main.noConfusion hm,
          fun r hm => Main.noConfusion hm, fun r hm => Main.noConfusion hm⟩
      · cases h
        exact ⟨h1, h2, h3, h4, fun hm => Main.noConfusion hm,
          fun r hm => Main.noConfusion hm, fun r _ => ⟨h5.2.1 ret hmain, rfl⟩⟩
    · cases h

/-- Every step keeps the state consistent. -/
theorem step_consistent (s s' : RunState) (e : Event) (hs : s.Consistent)
    (h : s.step e = some s') : s'.Consistent := by
  unfold RunState.step at h
  split at h
  · exact act_consistent s s' e hs h
  · cases h

/-- Every schedule keeps the state consistent. -/
theorem run_consistent (s : RunState) (es : List Event) (hs : s.Consistent) :
    (s.run es).Consistent := by
  induction es generalizing s with
  | nil => exact hs
  | cons e es ih =>
    simp only [RunState.run]
    cases hstep : s.step e with
    | none => exact ih s hs
    | some s' => exact ih s' (step_consistent s s' e hs hstep)

end commands

namespace commands

/-- C14: what the code does when every worker ends before the deadline. With
the single plugin `yara`, whose `StartPlugin` returns in time, the wait
group reaches zero, `done` is closed and the caller takes the case
`<-done`: it closes `errors`, returns nil, and the deferred `close(errors)`
closes the channel a second time, so the call ends in a panic and not in a
normal return. The same holds whenever the case `<-done` is taken. -/
theorem all_workers_done_panics :
    (runPluginsWithSemaphore none [{ Name := "yara" }]
        [Event.acquire 0, Event.finish 0 false, Event.waitReturns, Event.mainDone]).main =
        Main.panicked "close of closed channel" ∧
      (runPluginsWithSemaphore none [{ Name := "yara" }]
        [Event.acquire 0, Event.finish 0 false, Event.waitReturns, Event.mainDone]).workers =
        [Worker.finished] ∧
      (runPluginsWithSemaphore none [{ Name := "yara" }]
        [Event.acquire 0, Event.finish 0 false, Event.waitReturns, Event.mainDone]).ctx =
        none ∧
      ∀ s s' : RunState, s.step Event.mainDone = some s' →
        s'.main = Main.panicked "close of closed channel" := by
  refine ⟨by decide, by decide, by decide, ?_⟩
  intro s s' h
  unfold RunState.step at h
  split at h
  · simp only [RunState.act] at h
    split at h
    · split at h <;>
      · cases h
        rfl
    · cases h
  · cases h

/-- C15: what the code does when the deadline fires while the worker of the
single plugin `yara` is unfinished. Run 1: the worker waits for a slot when
the deadline fires, gives up, `done` is closed, and the caller takes the
case `<-done`: the call ends in the panic of the double `close(errors)`, no
error is returned. Run 2: the worker is inside `StartPlugin` when the
deadline fires; the caller takes `<-ctx.Done()` and runs the deferred
`close(errors)`; `StartPlugin` returns and the worker sends its timeout
error on the closed channel: the panic ends the process before the caller
is back. Run 3: as run 2, but the caller is back with the error
`scan timeout: context deadline exceeded` before `StartPlugin` returns; the
worker's send then ends the process. After such a return every step of an
abandoned worker ends in that panic. -/
theorem deadline_with_unfinished_worker_panics :
    (runPluginsWithSemaphore none [{ Name := "yara" }] [Event.deadline]).workers =
        [Worker.waiting] ∧
      (runPluginsWithSemaphore none [{ Name := "yara" }]
        [Event.deadline, Event.giveUp 0, Event.waitReturns, Event.mainDone]).main =
        Main.panicked "close of closed channel" ∧
      (runPluginsWithSemaphore none [{ Name := "yara" }]
        [Event.acquire 0, Event.deadline, Event.mainCtx, Event.deferCloseErrors,
          Event.finish 0 false]).main =
        Main.closing (some (RunError.scanTimeout CtxErr.deadlineExceeded)) ∧
      (runPluginsWithSemaphore none [{ Name := "yara" }]
        [Event.acquire 0, Event.deadline, Event.mainCtx, Event.deferCloseErrors,
          Event.finish 0 false]).panic = some "send on closed channel" ∧
      (runPluginsWithSemaphore none [{ Name := "yara" }]
        [Event.acquire 0, Event.deadline, Event.mainCtx, Event.deferCloseErrors,
          Event.deferCloseSem]).main =
        Main.returned (some (RunError.scanTimeout CtxErr.deadlineExceeded)) ∧
      (runPluginsWithSemaphore none [{ Name := "yara" }]
        [Event.acquire 0, Event.deadline, Event.mainCtx, Event.deferCloseErrors,
          Event.deferCloseSem, Event.finish 0 false]).panic =
        some "send on closed channel" ∧
      ∀ (s s' : RunState) (i : Nat) (slow : Bool), s.Consistent →
        (∃ r, s.main = Main.returned r) → s.ctx ≠ none →
        (s.step (Event.acquire i) = some s' ∨ s.step (Event.giveUp i) = some s' ∨
          s.step (Event.finish i slow) = some s') →
        s'.panic = some "send on closed channel" := by
  refine ⟨by decide, by decide, by decide, by decide, by decide, by decide, ?_⟩
  intro s s' i slow hs hret hctx hstep
  obtain ⟨r, hr⟩ := hret
  obtain ⟨hec, hsc⟩ := hs.2.2.2.2.2.2 r hr
  have hsome : s.ctx.isSome = true := by
    cases hc : s.ctx with
    | none => exact absurd hc hctx
    | some e => rfl
  unfold RunState.step at hstep
  by_cases hp : s.panic = none
  · simp only [hp, if_true] at hstep
    rcases hstep with h | h | h
    · simp only [RunState.act, hsc, if_true] at h
      split at h
      · cases h
        rfl
      · cases h
    · simp only [RunState.act] at h
      split at h
      · split at h
        · simp only [RunState.sendAndLeave, hec, if_true] at h
          cases h
          rfl
        · cases h
      · cases h
    · simp only [RunState.act, hsome, Bool.or_true, if_true] at h
      split at h
      · simp only [RunState.sendAndLeave, hec, if_true] at h
        cases h
        rfl
      · cases h
  · simp [hp] at hstep

/-- C16: for every list of plugins, every context and every schedule of the
goroutines, the number of workers past admission, those holding a slot of
`sem` between its acquisition and its release after `StartPlugin`, is at
most `maxConcurrentPlugins`, which is 10. With 15 plugins that all try to
acquire a slot, 10 are past admission and 5 wait. -/
theorem at_most_ten_workers_past_admission (ctx : Option CtxErr) (plugins : List Plugin)
    (schedule : List Event) :
    (runPluginsWithSemaphore ctx plugins schedule).pastAdmission ≤ maxConcurrentPlugins ∧
      maxConcurrentPlugins = 10 ∧
      (runPluginsWithSemaphore none (List.replicate 15 { Name := "yara" })
        ((List.range 15).map Event.acquire)).pastAdmission = 10 ∧
      (runPluginsWithSemaphore none (List.replicate 15 { Name := "yara" })
        ((List.range 15).map Event.acquire)).workers.count Worker.waiting = 5 := by
  refine ⟨?_, rfl, by decide, by decide⟩
  by_cases hp : plugins.length = 0
  · have hnil : plugins = [] := List.length_eq_zero.mp hp
    subst hnil
    simp [runPluginsWithSemaphore, RunState.pastAdmission, RunState.init]
  · simp only [runPluginsWithSemaphore, hp, if_false, RunState.pastAdmission]
    obtain ⟨h1, h2, -⟩ :=
      run_consistent (RunState.init ctx plugins) schedule (init_consistent ctx plugins)
    omega

/-- C18: with an empty list of plugins `runPluginsWithSemaphore` returns nil,
for every context, also one that is already done, and whatever is
scheduled; no goroutine exists and `StartPlugin` is never called. -/
theorem empty_worker_set_returns_nil (ctx : Option CtxErr) (schedule : List Event) :
    (runPluginsWithSemaphore ctx [] schedule).main = Main.returned none ∧
      (runPluginsWithSemaphore ctx [] schedule).workers = [] ∧
      (runPluginsWithSemaphore ctx [] schedule).started = [] := by
  simp [runPluginsWithSemaphore, RunState.init]

end commands

/-! ## Safe joining of paths -/

namespace filepath

/-- A path always has at least one piece. -/
theorem splitSep_ne_nil (l : List Char) : splitSep l ≠ [] := by
  cases l with
  | nil => simp [splitSep]
  | cons c cs =>
    unfold splitSep
    split <;> split <;> simp

/-- A leading separator starts a new, empty piece. -/
theorem splitSep_slash (l : List Char) : splitSep ('/' :: l) = [] :: splitSep l := by
  conv => lhs; unfold splitSep
  cases h : splitSep l with
  | nil => exact absurd h (splitSep_ne_nil l)
  | cons w ws => simp

/-- A leading character that is no separator joins the first piece. -/
theorem splitSep_char (c : Char) (l : List Char) (w : List Char) (ws : List (List Char))
    (hc : c ≠ '/') (h : splitSep l = w :: ws) : splitSep (c :: l) = (c :: w) :: ws := by
  conv => lhs; unfold splitSep
  simp [h, hc]

/-- A piece without separator in front of a separator is the first piece. -/
theorem splitSep_append (w l : List Char) (hw : '/' ∉ w) :
    splitSep (w ++ '/' :: l) = w :: splitSep l := by
  induction w with
  | nil => exact splitSep_slash l
  | cons c cs ih =>
    simp only [List.mem_cons, not_or] at hw
    exact splitSep_char c _ _ _ (fun h => hw.1 h.symm) (ih hw.2)

/-- A path without separator is its only piece. -/
theorem splitSep_single (w : List Char) (hw : '/' ∉ w) : splitSep w = [w] := by
  induction w with
  | nil => rfl
  | cons c cs ih =>
    simp only [List.mem_cons, not_or] at hw
    exact splitSep_char c _ _ _ (fun h => hw.1 h.symm) (ih hw.2)

/-- No piece of a path holds a separator. -/
theorem not_mem_splitSep (l w : List Char) (h : w ∈ splitSep l) : '/' ∉ w := by
  induction l generalizing w with
  | nil =>
    simp only [splitSep, List.mem_singleton] at h
    subst h
    simp
  | cons c cs ih =>
    by_cases hc : c = '/'
    · subst hc
      rw [splitSep_slash] at h
      rcases List.mem_cons.mp h with rfl | h
      · simp
      · exact ih w h
    · cases hs : splitSep cs with
      | nil => exact absurd hs (splitSep_ne_nil cs)
      | cons v vs =>
        rw [splitSep_char c cs v vs hc hs] at h
        rcases List.mem_cons.mp h with rfl | h
        · have hv := ih v (by rw [hs]; exact List.mem_cons_self _ _)
          simp only [List.mem_cons, not_or]
          exact ⟨fun e => hc e.symm, hv⟩
        · exact ih w (by rw [hs]; exact List.mem_cons_of_mem _ h)

/-- Splitting undoes joining, for pieces without separator. -/
theorem splitSep_joinSep (out : List (List Char)) (hne : out ≠ [])
    (h : ∀ c ∈ out, '/' ∉ c) : splitSep (joinSep out) = out := by
  induction out with
  | nil => exact absurd rfl hne
  | cons c rest ih =>
    cases rest with
    | nil => exact splitSep_single c (h c (List.mem_cons_self _ _))
    | cons d rest =>
      simp only [joinSep]
      rw [splitSep_append c _ (h c (List.mem_cons_self _ _))]
      rw [ih (by simp) (fun x hx => h x (List.mem_cons_of_mem _ hx))]

end filepath

namespace filepath

/-- At the root, `Clean` keeps only names. -/
theorem cleanStep_names (acc : List (List Char)) (w : List Char)
    (hacc : ∀ c ∈ acc, IsName c) (hw : '/' ∉ w) :
    ∀ c ∈ cleanStep true acc w, IsName c := by
  unfold cleanStep
  by_cases h1 : w = [] ∨ w = ['.']
  · rw [if_pos h1]
    exact hacc
  · rw [if_neg h1]
    by_cases h2 : w = ['.', '.']
    · rw [if_pos h2]
      cases acc with
      | nil => simp
      | cons top rest =>
        have htop := hacc top (List.mem_cons_self _ _)
        simp only [htop.2.2.1, if_false]
        exact fun c hc => hacc c (List.mem_cons_of_mem _ hc)
    · rw [if_neg h2]
      intro c hc
      rcases List.mem_cons.mp hc with rfl | hc
      · exact ⟨fun e => h1 (Or.inl e), fun e => h1 (Or.inr e), h2, hw⟩
      · exact hacc c hc

/-- At the root, the pieces `Clean` keeps are names. -/
theorem foldl_cleanStep_names (ws acc : List (List Char))
    (hacc : ∀ c ∈ acc, IsName c) (hws : ∀ w ∈ ws, '/' ∉ w) :
    ∀ c ∈ ws.foldl (cleanStep true) acc, IsName c := by
  induction ws generalizing acc with
  | nil => exact hacc
  | cons w ws ih =>
    simp only [List.foldl_cons]
    exact ih _ (cleanStep_names acc w hacc (hws w (List.mem_cons_self _ _)))
      (fun x hx => hws x (List.mem_cons_of_mem _ hx))

/-- `Clean` keeps every name it meets. -/
theorem foldl_cleanStep_of_names (out acc : List (List Char)) (h : ∀ c ∈ out, IsName c) :
    out.foldl (cleanStep true) acc = out.reverse ++ acc := by
  induction out generalizing acc with
  | nil => rfl
  | cons c rest ih =>
    have hc := h c (List.mem_cons_self _ _)
    have hstep : cleanStep true acc c = c :: acc := by
      unfold cleanStep
      rw [if_neg (by simp [hc.1, hc.2.1]), if_neg hc.2.2.1]
    simp only [List.foldl_cons, hstep]
    rw [ih _ (fun x hx => h x (List.mem_cons_of_mem _ hx))]
    simp

/-- A rooted path cleans to the root followed by names. -/
theorem cleanChars_rooted (l : List Char) :
    ∃ out, (∀ c ∈ out, IsName c) ∧ cleanChars ('/' :: l) = '/' :: joinSep out := by
  refine ⟨((splitSep ('/' :: l)).foldl (cleanStep true) []).reverse, ?_, ?_⟩
  · intro c hc
    exact foldl_cleanStep_names _ [] (by simp) (fun w hw => not_mem_splitSep _ w hw) c
      (List.mem_reverse.mp hc)
  · simp [cleanChars]

/-- Names joined by separators are not the empty path. -/
theorem joinSep_ne_nil (c : List Char) (rest : List (List Char)) (hc : c ≠ []) :
    joinSep (c :: rest) ≠ [] := by
  cases rest with
  | nil => simpa [joinSep] using hc
  | cons d rest => simp [joinSep, hc]

/-- The pieces of the root followed by names. -/
theorem splitSep_cleanAbs (out : List (List Char)) (h : ∀ c ∈ out, IsName c) :
    splitSep ('/' :: joinSep out) = if out = [] then [[], []] else [] :: out := by
  rw [splitSep_slash]
  by_cases hne : out = []
  · subst hne
    rfl
  · rw [if_neg hne, splitSep_joinSep out hne (fun c hc => (h c hc).2.2.2)]

/-- Cleaning a cleaned rooted path changes nothing. -/
theorem cleanChars_cleanAbs (out : List (List Char)) (h : ∀ c ∈ out, IsName c) :
    cleanChars ('/' :: joinSep out) = '/' :: joinSep out := by
  simp only [cleanChars, decide_True, if_true, splitSep_cleanAbs out h]
  by_cases hne : out = []
  · subst hne
    simp [cleanStep, joinSep]
  · rw [if_neg hne]
    have h0 : cleanStep true [] [] = [] := by simp [cleanStep]
    simp only [List.foldl_cons, h0, foldl_cleanStep_of_names out [] h]
    simp

/-- The elements `Rel` walks over in a cleaned rooted path: the empty piece
before the root, then the names. -/
theorem relWords_cleanAbs (out : List (List Char)) (h : ∀ c ∈ out, IsName c) :
    relWords ('/' :: joinSep out) = [] :: out := by
  unfold relWords
  cases out with
  | nil => simp [joinSep]
  | cons c rest =>
    have hj := joinSep_ne_nil c rest (h c (List.mem_cons_self _ _)).1
    rw [if_neg (by simp), if_neg (by simpa using hj), splitSep_cleanAbs _ h]
    simp

/-- The names of a cleaned rooted path. -/
theorem components_cleanAbs (out : List (List Char)) (h : ∀ c ∈ out, IsName c) :
    components (String.mk ('/' :: joinSep out)) = out := by
  simp only [components, splitSep_cleanAbs out h]
  by_cases hne : out = []
  · subst hne
    simp
  · rw [if_neg hne]
    simp only [List.filter_cons, ne_eq, not_true_eq_false, decide_False, Bool.false_eq_true,
      if_false]
    exact List.filter_eq_self.mpr (fun c hc => by simpa using (h c hc).1)

end filepath

namespace filepath

/-- Nothing is left of the base exactly when the base is a prefix of the
target. -/
theorem dropCommon_fst_eq_nil (bs ts : List (List Char)) :
    (dropCommon bs ts).1 = [] ↔ bs <+: ts := by
  induction bs generalizing ts with
  | nil => simp [dropCommon]
  | cons b bs ih =>
    cases ts with
    | nil => simp [dropCommon]
    | cons t ts =>
      unfold dropCommon
      by_cases hbt : b = t
      · subst hbt
        simp [ih, List.cons_prefix_cons]
      · simp [hbt, List.cons_prefix_cons]

/-- What is left of the base comes from the base. -/
theorem mem_dropCommon_fst (bs ts : List (List Char)) (x : List Char)
    (h : x ∈ (dropCommon bs ts).1) : x ∈ bs := by
  induction bs generalizing ts with
  | nil => simp [dropCommon] at h
  | cons b bs ih =>
    cases ts with
    | nil => simpa [dropCommon] using h
    | cons t ts =>
      unfold dropCommon at h
      by_cases hbt : b = t
      · rw [if_pos hbt] at h
        exact List.mem_cons_of_mem _ (ih ts h)
      · rw [if_neg hbt] at h
        exact h

/-- What is left of the target comes from the target. -/
theorem mem_dropCommon_snd (bs ts : List (List Char)) (x : List Char)
    (h : x ∈ (dropCommon bs ts).2) : x ∈ ts := by
  induction bs generalizing ts with
  | nil => simpa [dropCommon] using h
  | cons b bs ih =>
    cases ts with
    | nil => simp [dropCommon] at h
    | cons t ts =>
      unfold dropCommon at h
      by_cases hbt : b = t
      · rw [if_pos hbt] at h
        exact List.mem_cons_of_mem _ (ih ts h)
      · rw [if_neg hbt] at h
        exact h

/-- A relative path that starts with a `..` element is `..` or begins with
`../`. -/
theorem joinSep_dotdot (n : Nat) (ts : List (List Char)) :
    joinSep (List.replicate (n + 1) ['.', '.'] ++ ts) = ['.', '.'] ∨
      ['.', '.', '/'] <+: joinSep (List.replicate (n + 1) ['.', '.'] ++ ts) := by
  rw [List.replicate_succ, List.cons_append]
  cases h : List.replicate n ['.', '.'] ++ ts with
  | nil => exact Or.inl rfl
  | cons d r =>
    refine Or.inr ⟨joinSep (d :: r), ?_⟩
    simp [joinSep]

/-- A relative path made of names is not `..` and does not begin with
`../`. -/
theorem joinSep_names (ts : List (List Char)) (h : ∀ c ∈ ts, IsName c) :
    ¬ (joinSep ts = ['.', '.'] ∨ ['.', '.', '/'] <+: joinSep ts) := by
  cases ts with
  | nil => simp [joinSep]
  | cons c rest =>
    obtain ⟨h1, h2, h3, h4⟩ := h c (List.mem_cons_self _ _)
    cases rest with
    | nil =>
      simp only [joinSep]
      rintro (he | ⟨t, ht⟩)
      · exact h3 he
      · apply h4
        rw [← ht]
        simp
    | cons d rest =>
      simp only [joinSep]
      rintro (he | ⟨t, ht⟩)
      · apply (by simp : '/' ∉ ['.', '.'])
        rw [← he]
        simp
      · match c, h1, h3, h4, ht with
        | [], h1, _, _, _ => exact absurd rfl h1
        | [a], _, _, _, ht => simp at ht
        | [a, b], _, h3, _, ht =>
          simp only [List.cons_append, List.nil_append, List.cons.injEq] at ht
          exact h3 (by rw [← ht.1, ← ht.2.1])
        | a :: b :: e :: r, _, _, h4, ht =>
          simp only [List.cons_append, List.nil_append, List.cons.injEq] at ht
          apply h4
          rw [← ht.2.2.1]
          simp

end filepath

namespace filepath

/-- On two cleaned rooted paths `Rel` succeeds, and its result is `..` or
begins with `../` exactly when the names of the base are not a prefix of the
names of the target. -/
theorem relChars_cleanAbs (bp tp : String) (bs ts : List (List Char))
    (hb : ∀ c ∈ bs, IsName c) (ht : ∀ c ∈ ts, IsName c) :
    ∃ rel, relChars bp tp ('/' :: joinSep bs) ('/' :: joinSep ts) = Except.ok rel ∧
      ((rel = ['.', '.'] ∨ ['.', '.', '/'] <+: rel) ↔
        ¬ components (String.mk ('/' :: joinSep bs)) <+:
          components (String.mk ('/' :: joinSep ts))) := by
  unfold relChars
  by_cases heq : '/' :: joinSep ts = '/' :: joinSep bs
  · rw [if_pos heq]
    refine ⟨['.'], rfl, ?_⟩
    rw [heq]
    simp
  · rw [if_neg heq]
    have hdrop : dropCommon ([] :: bs) ([] :: ts) = dropCommon bs ts := by
      simp [dropCommon]
    have hsl : ∀ l : List Char, slashed ('/' :: l) = true := fun l => by simp [slashed]
    simp only [List.cons.injEq, Char.reduceEq, false_and, if_false, hsl, bne_self_eq_false,
      Bool.false_eq_true, relWords_cleanAbs bs hb, relWords_cleanAbs ts ht, hdrop]
    rw [components_cleanAbs bs hb, components_cleanAbs ts ht]
    have hiff := dropCommon_fst_eq_nil bs ts
    have hmb := mem_dropCommon_fst bs ts
    have hmt := mem_dropCommon_snd bs ts
    cases hd : dropCommon bs ts with
    | mk b' t' =>
      rw [hd] at hiff hmb hmt
      cases b' with
      | nil =>
        refine ⟨joinSep t', rfl, ?_⟩
        have hn := joinSep_names t' (fun c hc => ht c (hmt c hc))
        have hp : bs <+: ts := hiff.mp rfl
        simp only [hp, not_true_eq_false, iff_false]
        exact hn
      | cons b rest =>
        have hnp : ¬ bs <+: ts := fun hp => by simpa using hiff.mpr hp
        have hbn : b ≠ ['.', '.'] := (hb b (hmb b (List.mem_cons_self _ _))).2.2.1
        cases t' with
        | nil =>
          refine ⟨joinSep (List.replicate (b :: rest).length ['.', '.']), rfl, ?_⟩
          simp only [hnp, not_false_eq_true, iff_true]
          have := joinSep_dotdot rest.length []
          simpa using this
        | cons t rest' =>
          refine ⟨joinSep (List.replicate (b :: rest).length ['.', '.'] ++ t :: rest'), ?_, ?_⟩
          · simp [hbn]
          · simp only [hnp, not_false_eq_true, iff_true]
            exact joinSep_dotdot rest.length (t :: rest')

/-- With a rooted working directory `Abs` succeeds and yields a cleaned
rooted path: the root followed by names. -/
theorem Abs_cleanAbs (getwd : Except String String) (wd path : String)
    (hwd : getwd = Except.ok wd) (hroot : IsAbs wd = true) :
    ∃ out, (∀ c ∈ out, IsName c) ∧
      Abs getwd path = Except.ok (String.mk ('/' :: joinSep out)) := by
  unfold Abs
  by_cases hp : IsAbs path = true
  · rw [if_pos hp]
    unfold IsAbs at hp
    cases hd : path.data with
    | nil => simp [hd] at hp
    | cons c l =>
      simp only [hd, decide_eq_true_eq] at hp
      subst hp
      obtain ⟨out, hn, hc⟩ := cleanChars_rooted l
      exact ⟨out, hn, by simp [Clean, hd, hc]⟩
  · rw [if_neg hp, hwd]
    unfold IsAbs at hroot
    cases hd : wd.data with
    | nil => simp [hd] at hroot
    | cons c l =>
      simp only [hd, decide_eq_true_eq] at hroot
      subst hroot
      have hne : wd ≠ "" := by
        intro he
        rw [he] at hd
        simp at hd
      have hj : Join [wd, path] = Clean (wd ++ "/" ++ path) := by
        simp [Join, hne, String.intercalate, String.intercalate.go]
      obtain ⟨out, hn, hc⟩ := cleanChars_rooted (l ++ '/' :: path.data)
      refine ⟨out, hn, ?_⟩
      simp only [hj, Clean, String.data_append, hd]
      simp [hc]

end filepath

namespace util

/-- A rooted base makes a rooted join. -/
theorem Join_rooted (base elem : String) (h : filepath.IsAbs base = true) :
    filepath.IsAbs (filepath.Join [base, elem]) = true := by
  unfold filepath.IsAbs at h
  cases hd : base.data with
  | nil => simp [hd] at h
  | cons c l =>
    simp only [hd, decide_eq_true_eq] at h
    subst h
    have hne : base ≠ "" := by
      intro he
      rw [he] at hd
      simp at hd
    have hj : filepath.Join [base, elem] = filepath.Clean (base ++ "/" ++ elem) := by
      simp [filepath.Join, hne, String.intercalate, String.intercalate.go]
    obtain ⟨out, -, hc⟩ := filepath.cleanChars_rooted (l ++ '/' :: elem.data)
    have hdata : (base ++ "/" ++ elem).data = '/' :: (l ++ '/' :: elem.data) := by
      simp [String.data_append, hd]
    simp [hj, filepath.Clean, filepath.IsAbs, hdata, hc]

/-- A rooted path has an absolute form whatever the working directory, and
with a rooted working directory every path has one: the root followed by
names. -/
theorem Abs_of_rooted (getwd : Except String String) (wd path : String)
    (h : filepath.IsAbs path = true ∨ (getwd = Except.ok wd ∧ filepath.IsAbs wd = true)) :
    ∃ out, (∀ c ∈ out, filepath.IsName c) ∧
      filepath.Abs getwd path = Except.ok (String.mk ('/' :: filepath.joinSep out)) := by
  rcases h with hp | ⟨hwd, hroot⟩
  · unfold filepath.Abs
    rw [if_pos hp]
    unfold filepath.IsAbs at hp
    cases hd : path.data with
    | nil => simp [hd] at hp
    | cons c l =>
      simp only [hd, decide_eq_true_eq] at hp
      subst hp
      obtain ⟨out, hn, hc⟩ := filepath.cleanChars_rooted l
      exact ⟨out, hn, by simp [filepath.Clean, hd, hc]⟩
  · exact filepath.Abs_cleanAbs getwd wd path hwd hroot

/-- C20: when `base` is rooted, or the working directory is known and rooted,
both `filepath.Abs(base)` and `filepath.Abs(filepath.Join(base, elem))`
succeed, with `absBase` and `absPath`, and for every `elem`: when
`SafeJoinPath` succeeds, the path it returns is `absPath` and the names of
`absBase` are a prefix of its names (it is `absBase` or lies below it); when
the names of `absBase` are not a prefix of those of `absPath` (the join lies
outside the base), it returns the empty path and the error
`path traversal detected: ` followed by `elem`, whose message contains
`path traversal`. -/
theorem SafeJoinPath_confines (getwd : Except String String) (wd base elem : String)
    (h : filepath.IsAbs base = true ∨
      (getwd = Except.ok wd ∧ filepath.IsAbs wd = true)) :
    ∃ absBase absPath,
      filepath.Abs getwd base = Except.ok absBase ∧
      filepath.Abs getwd (filepath.Join [base, elem]) = Except.ok absPath ∧
      (∀ p, SafeJoinPath getwd base elem = (p, none) →
        p = absPath ∧ filepath.components absBase <+: filepath.components p) ∧
      (¬ filepath.components absBase <+: filepath.components absPath →
        SafeJoinPath getwd base elem = ("", some ("path traversal detected: " ++ elem))) ∧
      "path traversal".data <:+: ("path traversal detected: " ++ elem).data := by
  obtain ⟨bs, hbs, hB⟩ := Abs_of_rooted getwd wd base h
  obtain ⟨ts, hts, hT⟩ := Abs_of_rooted getwd wd (filepath.Join [base, elem])
    (h.imp (Join_rooted base elem) id)
  obtain ⟨rel, hrel, hiff⟩ := filepath.relChars_cleanAbs (String.mk ('/' :: filepath.joinSep bs))
    (String.mk ('/' :: filepath.joinSep ts)) bs ts hbs hts
  have hRel : filepath.Rel (String.mk ('/' :: filepath.joinSep bs))
      (String.mk ('/' :: filepath.joinSep ts)) = Except.ok (String.mk rel) := by
    simp only [filepath.Rel, filepath.cleanChars_cleanAbs bs hbs,
      filepath.cleanChars_cleanAbs ts hts, hrel]
  have hdd : (String.mk rel = "..") ↔ rel = ['.', '.'] := by
    constructor
    · intro h
      have := congrArg String.data h
      simpa using this
    · intro h
      subst h
      rfl
  have hpre : filepath.HasPrefix (String.mk rel) (".." ++ "/") = true ↔
      ['.', '.', '/'] <+: rel := by
    have hlit : (".." ++ "/").data = ['.', '.', '/'] := rfl
    simp only [filepath.HasPrefix, hlit]
    exact List.isPrefixOf_iff_prefix
  have hsafe : SafeJoinPath getwd base elem =
      if rel = ['.', '.'] ∨ ['.', '.', '/'] <+: rel then
        ("", some ("path traversal detected: " ++ elem))
      else (String.mk ('/' :: filepath.joinSep ts), none) := by
    simp only [SafeJoinPath, hT, hB, hRel, hdd, hpre]
  refine ⟨_, _, hB, hT, ?_, ?_, ?_⟩
  · intro p hp
    rw [hsafe] at hp
    by_cases hc : rel = ['.', '.'] ∨ ['.', '.', '/'] <+: rel
    · rw [if_pos hc] at hp
      simp at hp
    · rw [if_neg hc] at hp
      have hpe : String.mk ('/' :: filepath.joinSep ts) = p := (Prod.mk.inj hp).1
      subst hpe
      exact ⟨rfl, not_not.mp (fun hn => hc (hiff.mpr hn))⟩
  · intro hn
    rw [hsafe, if_pos (hiff.mpr hn)]
  · refine ⟨[], " detected: ".data ++ elem.data, ?_⟩
    simp [String.data_append]

/-- Witness of `SafeJoinPath_confines`: the elements `..` and
`../../etc/passwd` under the rooted base `/tmp/base` are refused, and
`subdir/file.txt` is accepted; under the relative base `base` in the
working directory `/work`, the element `../other` is refused. -/
theorem SafeJoinPath_confines_witness :
    filepath.IsAbs "/work" = true ∧
      SafeJoinPath (Except.ok "/work") "/tmp/base" ".." =
        ("", some "path traversal detected: ..") ∧
      SafeJoinPath (Except.ok "/work") "/tmp/base" "../../etc/passwd" =
        ("", some "path traversal detected: ../../etc/passwd") ∧
      SafeJoinPath (Except.ok "/work") "/tmp/base" "subdir/file.txt" =
        ("/tmp/base/subdir/file.txt", none) ∧
      SafeJoinPath (Except.ok "/work") "base" "../other" =
        ("", some "path traversal detected: ../other") ∧
      (∃ absBase absPath,
        filepath.Abs (Except.ok "/work") "/tmp/base" = Except.ok absBase ∧
        filepath.Abs (Except.ok "/work") (filepath.Join ["/tmp/base", ".."]) =
          Except.ok absPath ∧
        (∀ p, SafeJoinPath (Except.ok "/work") "/tmp/base" ".." = (p, none) →
          p = absPath ∧ filepath.components absBase <+: filepath.components p) ∧
        (¬ filepath.components absBase <+: filepath.components absPath →
          SafeJoinPath (Except.ok "/work") "/tmp/base" ".." =
            ("", some ("path traversal detected: " ++ ".."))) ∧
        "path traversal".data <:+: ("path traversal detected: " ++ "..").data) :=
  ⟨rfl, by decide, by decide, by decide, by decide,
    SafeJoinPath_confines (Except.ok "/work") "/work" "/tmp/base" ".." (Or.inl rfl)⟩

end util

/-! ## Runs of the connection pool -/

namespace espool

/-- Every call takes a pool that is Uninitialized, Ready or Failed to such a
pool. -/
theorem apply_keeps_state (dbInit : Connector) (s : State) (op : Op)
    (h : s.pool.IsUninitialized ∨ s.pool.IsReady ∨ s.pool.IsFailed) :
    (Pool.apply dbInit s op).pool.IsUninitialized ∨ (Pool.apply dbInit s op).pool.IsReady ∨
      (Pool.apply dbInit s op).pool.IsFailed := by
  cases op with
  | Get => exact h
  | Reset => exact Or.inl ⟨rfl, rfl, rfl⟩
  | Init db =>
    simp only [Pool.apply]
    rcases h with ⟨hc, he, ho⟩ | h
    · unfold Pool.Init
      simp only [ho, Bool.false_eq_true, if_false]
      cases db with
      | none => exact Or.inr (Or.inr ⟨hc, ⟨ErrNilDatabase, rfl⟩, rfl⟩)
      | some d =>
        simp only
        cases dbInit s.calls d with
        | none => exact Or.inr (Or.inl ⟨⟨d, rfl⟩, he, rfl⟩)
        | some msg => exact Or.inr (Or.inr ⟨hc, ⟨Error.external msg, rfl⟩, rfl⟩)
    · have ho : s.pool.once = true := by
        rcases h with h | h
        · exact h.2.2
        · exact h.2.2
      rw [Init_of_once dbInit s db ho]
      exact Or.inr h

/-- Every sequence of calls takes a pool that is Uninitialized, Ready or
Failed to such a pool. -/
theorem runOps_keeps_state (dbInit : Connector) (ops : List Op) (s : State)
    (h : s.pool.IsUninitialized ∨ s.pool.IsReady ∨ s.pool.IsFailed) :
    (Pool.runOps dbInit s ops).pool.IsUninitialized ∨
      (Pool.runOps dbInit s ops).pool.IsReady ∨ (Pool.runOps dbInit s ops).pool.IsFailed := by
  induction ops generalizing s with
  | nil => exact h
  | cons op ops ih =>
    simp only [Pool.runOps, List.foldl_cons]
    exact ih _ (apply_keeps_state dbInit s op h)

/-- C23: the pool reached from a fresh pool by any sequence of `Init`, `Get`
and `Reset` calls is Uninitialized (no handle, no error, initialization not
run), Ready (a handle, no error, initialization run) or Failed (no handle,
an error, initialization run), and only one of the three; the handle and
the recorded error are never both set, and initialization is never marked
as run with neither of them set. -/
theorem reachable_pool_states (dbInit : Connector) (ops : List Op) :
    ((Pool.runOps dbInit fresh ops).pool.IsUninitialized ∨
        (Pool.runOps dbInit fresh ops).pool.IsReady ∨
        (Pool.runOps dbInit fresh ops).pool.IsFailed) ∧
      ¬ ((Pool.runOps dbInit fresh ops).pool.IsUninitialized ∧
        (Pool.runOps dbInit fresh ops).pool.IsReady) ∧
      ¬ ((Pool.runOps dbInit fresh ops).pool.IsUninitialized ∧
        (Pool.runOps dbInit fresh ops).pool.IsFailed) ∧
      ¬ ((Pool.runOps dbInit fresh ops).pool.IsReady ∧
        (Pool.runOps dbInit fresh ops).pool.IsFailed) ∧
      ¬ ((Pool.runOps dbInit fresh ops).pool.client ≠ none ∧
        (Pool.runOps dbInit fresh ops).pool.err ≠ none) ∧
      ¬ ((Pool.runOps dbInit fresh ops).pool.once = true ∧
        (Pool.runOps dbInit fresh ops).pool.client = none ∧
        (Pool.runOps dbInit fresh ops).pool.err = none) := by
  have h := runOps_keeps_state dbInit ops fresh (Or.inl ⟨rfl, rfl, rfl⟩)
  generalize (Pool.runOps dbInit fresh ops).pool = p at h
  refine ⟨h, ?_, ?_, ?_, ?_, ?_⟩
  · rintro ⟨⟨_, _, ho⟩, ⟨_, _, ho2⟩⟩
    rw [ho] at ho2
    exact Bool.noConfusion ho2
  · rintro ⟨⟨_, _, ho⟩, ⟨_, _, ho2⟩⟩
    rw [ho] at ho2
    exact Bool.noConfusion ho2
  · rintro ⟨⟨_, he, _⟩, ⟨_, ⟨e, he2⟩, _⟩⟩
    rw [he] at he2
    exact Option.noConfusion he2
  · rintro ⟨hc, he⟩
    rcases h with h | h | h
    · exact hc h.1
    · exact he h.2.1
    · exact hc h.1
  · rintro ⟨ho, hc, he⟩
    rcases h with h | h | h
    · rw [h.2.2] at ho
      exact Bool.noConfusion ho
    · obtain ⟨d, hd⟩ := h.1
      rw [hc] at hd
      exact Option.noConfusion hd
    · obtain ⟨e, hd⟩ := h.2.1
      rw [he] at hd
      exact Option.noConfusion hd

end espool

/-! ## Scan errors -/

namespace errors

/-- C22: for every stage, code, message and underlying error, the value made
by `NewScanError` has `Stage`, `Code` and `Message` as given and an empty
`Context`, `Unwrap` returns the underlying error, and `Error()` is
`[stage/code] message: err` for an underlying error with text `err` and
`[stage/code] message` for a nil one. -/
theorem NewScanError_inspectable (stage code message : String) (err : Option GoError)
    (cause : GoError) :
    (NewScanError stage code message err).Stage = stage ∧
      (NewScanError stage code message err).Code = code ∧
      (NewScanError stage code message err).Message = message ∧
      (NewScanError stage code message err).Context = [] ∧
      (NewScanError stage code message err).Unwrap = err ∧
      (NewScanError stage code message (some cause)).Error =
        "[" ++ stage ++ "/" ++ code ++ "] " ++ message ++ ": " ++ cause.message ∧
      (NewScanError stage code message none).Error =
        "[" ++ stage ++ "/" ++ code ++ "] " ++ message :=
  ⟨rfl, rfl, rfl, rfl, rfl, rfl, rfl⟩

end errors

/-! ## The API server -/

namespace server

/-- The middlewares of a server after further registrations. -/
theorem middlewares_foldl_UseMiddleware {W : Type} (ms : List (W → W)) (s : Server W) :
    (ms.foldl Server.UseMiddleware s).middlewares = s.middlewares ++ ms ∧
      (ms.foldl Server.UseMiddleware s).cfg = s.cfg := by
  induction ms generalizing s with
  | nil => simp
  | cons m ms ih =>
    simp only [List.foldl_cons]
    rw [(ih _).1, (ih _).2]
    simp [Server.UseMiddleware]

/-- The wrapped handler runs the middlewares from the last to the first and
then the handler. -/
theorem foldl_wrap {W : Type} (ms : List (W → W)) (handler : W → W) (w : W) :
    ms.foldl (fun h mw => fun w => h (mw w)) handler w =
      handler (ms.foldr (fun m acc => m acc) w) := by
  induction ms generalizing handler with
  | nil => rfl
  | cons m ms ih =>
    simp only [List.foldl_cons, List.foldr_cons]
    rw [ih]

/-- What recorders leave behind when run from the last to the first. -/
theorem foldr_recorder (names : List String) (tr : List String) :
    (names.map recorder).foldr (fun m acc => m acc) tr = tr ++ names.reverse := by
  induction names with
  | nil => simp
  | cons n rest ih =>
    simp only [List.map_cons, List.foldr_cons, ih, recorder]
    simp

/-- C24: with debug logging off, for every list `ms` of middlewares
registered in this order through `UseMiddleware`, the handler made by
`handlerWithGlobalMiddlewares` runs on each request the last registered
middleware first and the first registered one last, and then the wrapped
handler, once; for middlewares and a handler that record their names, the
record is the names in reverse order followed by the handler's. -/
theorem global_middlewares_run_backwards {W : Type} (cfg : Config) (debugLevel : Bool)
    (debugf : W → W) (ms : List (W → W)) (handler : W → W) (w : W)
    (debugf2 : List String → List String) (names : List String) (tr : List String)
    (hoff : (cfg.Logging && debugLevel) = false) :
    (ms.foldl Server.UseMiddleware (New cfg)).handlerWithGlobalMiddlewares debugLevel
        debugf handler w = handler (ms.foldr (fun m acc => m acc) w) ∧
      ((names.map recorder).foldl Server.UseMiddleware (New cfg)).handlerWithGlobalMiddlewares
        debugLevel debugf2 (recorder "handler") tr = tr ++ names.reverse ++ ["handler"] := by
  have hgen : ∀ {V : Type} (d : V → V) (l : List (V → V)) (h : V → V) (v : V),
      (l.foldl Server.UseMiddleware (New cfg)).handlerWithGlobalMiddlewares debugLevel d h v =
        h (l.foldr (fun m acc => m acc) v) := by
    intro V d l h v
    have hm := middlewares_foldl_UseMiddleware l (New cfg : Server V)
    unfold Server.handlerWithGlobalMiddlewares
    rw [hm.1, hm.2]
    simp only [New, hoff, List.nil_append, Bool.false_eq_true, if_false]
    exact foldl_wrap l h v
  refine ⟨hgen debugf ms handler w, ?_⟩
  rw [hgen debugf2 (names.map recorder) (recorder "handler") tr, foldr_recorder]
  simp [recorder]

/-- Witness of `global_middlewares_run_backwards`: the middlewares `m1`,
`m2`, `m3` registered in this order run as `m3`, `m2`, `m1`, then the
handler. -/
theorem global_middlewares_run_backwards_witness :
    (quietConfig.Logging && true) = false ∧
      (([recorder "m1", recorder "m2", recorder "m3"].foldl Server.UseMiddleware
        (New quietConfig)).handlerWithGlobalMiddlewares true id (recorder "handler") [] =
        ["m3", "m2", "m1", "handler"]) :=
  ⟨rfl, by
    have h := (global_middlewares_run_backwards quietConfig true id
      [recorder "m1", recorder "m2", recorder "m3"] (recorder "handler") []
      id ["m1", "m2", "m3"] [] rfl).2
    simpa using h⟩

end server

/-! ## Copying files -/

namespace util

/-- A file whose source does not exist, cannot be examined or is not a
regular file is not copied: `CopyFile` returns an error and leaves the file
system as it is. -/
theorem CopyFile_bad_source (fl : os.Faults) (fs : os.FileSystem) (src dst : String)
    (h : (∀ info, os.Stat fl fs src = Except.ok info → os.IsRegular info.mode = false)) :
    (∃ err, (CopyFile fl fs src dst).1 = some err) ∧ (CopyFile fl fs src dst).2 = fs := by
  unfold CopyFile
  cases hs : os.Stat fl fs src with
  | error err => exact ⟨⟨_, rfl⟩, rfl⟩
  | ok info =>
    have hr := h info hs
    simp [hr]

/-- A new file has the type bits of a regular file. -/
theorem created_mode_regular (x : Nat) : (0o666 &&& x) &&& os.ModeType = 0 := by
  have h0 : 0o666 &&& os.ModeType = 0 := by decide
  rw [Nat.land_comm 0o666 x, Nat.land_assoc, h0, Nat.and_zero]

/-- Between two different files, given by their resolved names, of which the
destination is missing or a regular file, a copy that returns no error
leaves in the destination the bytes and the mode of the source and touches
no other file. -/
theorem CopyFile_of_distinct (fl : os.Faults) (fs fs' : os.FileSystem) (src dst : String)
    (s : os.Entry) (hne : src ≠ dst) (hsrc : fs src = some s)
    (hmode : s.mode &&& os.chmodMask = s.mode)
    (hdst : ∀ d, fs dst = some d → d.mode &&& os.ModeType = 0)
    (h : CopyFile fl fs src dst = (none, fs')) :
    fs' dst = some { mode := s.mode, data := s.data } ∧ ∀ p, p ≠ dst → fs' p = fs p := by
  unfold CopyFile at h
  cases hst : os.Stat fl fs src with
  | error err => simp [hst] at h
  | ok info =>
    have hinfo : info.mode = s.mode := by
      unfold os.Stat at hst
      cases hf : fl.statErr src with
      | some e => simp [hf] at hst
      | none =>
        simp only [hf, hsrc, Except.ok.injEq] at hst
        rw [← hst]
    simp only [hst] at h
    split at h
    · simp at h
    · cases ho : fl.openErr src with
      | some e => simp [ho] at h
      | none =>
        simp only [ho] at h
        cases hc : os.Create fl fs dst with
        | error e => simp [hc] at h
        | ok fs1 =>
          simp only [hc] at h
          -- the destination after `os.Create`
          have hfs1 : ∃ d1, d1.mode &&& os.ModeType = 0 ∧ d1.data = [] ∧
              fs1 = fs.set dst d1 := by
            unfold os.Create at hc
            cases hce : fl.createErr dst with
            | some e => simp [hce] at hc
            | none =>
              simp only [hce] at hc
              cases hd : fs dst with
              | none =>
                simp only [hd, Except.ok.injEq] at hc
                exact ⟨os.Entry.mk (0o666 &&& (os.ModePerm ^^^ (fl.umask &&& os.ModePerm))) [],
                  created_mode_regular _, rfl, hc.symm⟩
              | some d =>
                simp only [hd] at hc
                split at hc
                · simp at hc
                · simp only [Except.ok.injEq] at hc
                  exact ⟨os.Entry.mk d.mode [], hdst d hd, rfl, hc.symm⟩
          obtain ⟨d1, hd1m, hd1d, hfs1e⟩ := hfs1
          subst hfs1e
          have hsrc1 : (fs.set dst d1) src = some s := by
            simp [os.FileSystem.set, hne, hsrc]
          have hdst1 : (fs.set dst d1) dst = some d1 := by
            simp [os.FileSystem.set]
          unfold os.Copy at h
          simp only [hsrc1, hdst1] at h
          cases hcp : fl.copyErr with
          | some e => simp [hcp] at h
          | none =>
            simp only [hcp] at h
            unfold os.Chmod at h
            cases hch : fl.chmodErr dst with
            | some e => simp [hch] at h
            | none =>
              simp only [hch, os.FileSystem.set, if_true, Prod.mk.injEq, true_and] at h
              subst h
              constructor
              · simp [os.FileSystem.set, hinfo, hd1m, hmode]
              · intro p hp
                simp [os.FileSystem.set, hp]

/-- C21: what the code does when the destination is the source. On the file
`/tmp/source.txt` of `TestCopyFile`, a regular file of 12 bytes,
`CopyFile` with the same name as source and destination returns no error,
and the file is empty afterwards: `os.Create` truncates it before `io.Copy`
reads it. With another destination name the copy holds the 12 bytes and the
mode `0755`. -/
theorem copy_onto_itself_empties_file :
    os.Stat noFaults testFiles "/tmp/source.txt" = Except.ok { mode := 0o755, size := 12 } ∧
      (CopyFile noFaults testFiles "/tmp/source.txt" "/tmp/source.txt").1 = none ∧
      (CopyFile noFaults testFiles "/tmp/source.txt" "/tmp/source.txt").2 "/tmp/source.txt" =
        some { mode := 0o755, data := [] } ∧
      (CopyFile noFaults testFiles "/tmp/source.txt" "/tmp/copy.txt").1 = none ∧
      (CopyFile noFaults testFiles "/tmp/source.txt" "/tmp/copy.txt").2 "/tmp/copy.txt" =
        testFiles "/tmp/source.txt" :=
  ⟨rfl, by decide, by decide, by decide, by decide⟩

end util

/-! ## Missing files and `os.Stat` -/

namespace os

/-- When no name on the way is an existing non-directory and the name itself
has no entry, `os.Stat` reports that it does not exist. -/
theorem statWalk_missing (fs : FileSystem) (name : String) (way : List String)
    (hway : ∀ a ∈ way, ∀ e, fs a = some e → IsDir e.mode = true) (hnone : fs name = none) :
    statWalk fs name way =
      Except.error
        { msg := "stat " ++ name ++ ": no such file or directory", notExist := true } := by
  induction way with
  | nil => simp [statWalk, hnone]
  | cons a way ih =>
    unfold statWalk
    cases ha : fs a with
    | none => rfl
    | some e =>
      have hd := hway a (List.mem_cons_self _ _) e ha
      simp only [hd, if_true]
      exact ih (fun b hb => hway b (List.mem_cons_of_mem _ hb))

/-- When the first name on the way that is no directory is an existing
entry, `os.Stat` reports `not a directory`, which is not a not-exist
error. -/
theorem statWalk_below_file (fs : FileSystem) (name : String) (pre post : List String)
    (a : String) (e : Entry)
    (hpre : ∀ b ∈ pre, ∃ d, fs b = some d ∧ IsDir d.mode = true)
    (ha : fs a = some e) (he : IsDir e.mode = false) :
    statWalk fs name (pre ++ a :: post) =
      Except.error { msg := "stat " ++ name ++ ": not a directory", notExist := false } := by
  induction pre with
  | nil => simp [statWalk, ha, he]
  | cons b pre ih =>
    obtain ⟨d, hb, hd⟩ := hpre b (List.mem_cons_self _ _)
    simp only [List.cons_append, statWalk, hb, hd, if_true]
    exact ih (fun c hc => hpre c (List.mem_cons_of_mem _ hc))

end os

namespace commands

/-- C10, as stated, fails: on the machine with the directory `/tmp` and the
regular file `/tmp/test.bin`, the path `/tmp/test.bin/x` has no filesystem
entry, and `validateAndNormalizePath` fails with
`cannot access file: stat /tmp/test.bin/x: not a directory`, an error whose
message does not contain `file not found`. -/
theorem missing_below_file_is_not_not_found :
    sampleFiles "/tmp/test.bin/x" = none ∧
      filepath.Abs (Except.ok "/tmp") "/tmp/test.bin/x" = Except.ok "/tmp/test.bin/x" ∧
      validateAndNormalizePath (os.System.ofFiles (Except.ok "/tmp") sampleFiles)
          "/tmp/test.bin/x" =
        some "cannot access file: stat /tmp/test.bin/x: not a directory" ∧
      ¬ ("file not found".data <:+:
        "cannot access file: stat /tmp/test.bin/x: not a directory".data) :=
  ⟨by decide, rfl, by decide, by decide⟩

/-- C10, amended: for every path whose resolved absolute path `absPath` has
no filesystem entry: when no name on the way to it is an existing
non-directory, so that `os.Stat` reports it as not existing,
`validateAndNormalizePath` fails with exactly the error `file not found: `
followed by the path, and with no other; when the first name on the way
that is no directory exists (a file stands where a directory is needed),
`os.Stat` fails with `not a directory` and the validator fails with
`cannot access file: ` followed by that error. -/
theorem validate_missing_entry (getwd : Except String String) (fs : os.FileSystem)
    (path absPath : String) (hAbs : filepath.Abs getwd path = Except.ok absPath)
    (hnone : fs absPath = none) :
    ((∀ a ∈ os.ancestors absPath, ∀ e, fs a = some e → os.IsDir e.mode = true) →
        validateAndNormalizePath (os.System.ofFiles getwd fs) path =
          some ("file not found: " ++ path) ∧
        "file not found".data <:+: ("file not found: " ++ path).data) ∧
      (∀ pre a post e, os.ancestors absPath = pre ++ a :: post →
        (∀ b ∈ pre, ∃ d, fs b = some d ∧ os.IsDir d.mode = true) →
        fs a = some e → os.IsDir e.mode = false →
        validateAndNormalizePath (os.System.ofFiles getwd fs) path =
          some ("cannot access file: " ++ ("stat " ++ absPath ++ ": not a directory"))) := by
  constructor
  · intro hway
    exact validate_rejects_missing_file (os.System.ofFiles getwd fs) path absPath _ hAbs
      (os.statWalk_missing fs absPath _ hway hnone) rfl
  · intro pre a post e hsplit hpre ha he
    have hstat : (os.System.ofFiles getwd fs).stat absPath =
        Except.error
          { msg := "stat " ++ absPath ++ ": not a directory", notExist := false } := by
      simp only [os.System.ofFiles, hsplit]
      exact os.statWalk_below_file fs absPath pre post a e hpre ha he
    have hAbs2 : filepath.Abs (os.System.ofFiles getwd fs).getwd path = Except.ok absPath :=
      hAbs
    simp [validateAndNormalizePath, hAbs2, hstat]

/-- Witness of `validate_missing_entry`: on the machine with the directory
`/tmp` and the regular file `/tmp/test.bin`, the path `/tmp/nonexist.bin` is
not found, and the path `/tmp/test.bin/x` cannot be accessed. -/
theorem validate_missing_entry_witness :
    validateAndNormalizePath (os.System.ofFiles (Except.ok "/tmp") sampleFiles)
        "/tmp/nonexist.bin" = some ("file not found: " ++ "/tmp/nonexist.bin") ∧
      validateAndNormalizePath (os.System.ofFiles (Except.ok "/tmp") sampleFiles)
        "/tmp/test.bin/x" =
        some ("cannot access file: " ++ ("stat " ++ "/tmp/test.bin/x" ++ ": not a directory")) :=
  ⟨((validate_missing_entry (Except.ok "/tmp") sampleFiles "/tmp/nonexist.bin"
      "/tmp/nonexist.bin" rfl (by decide)).1 (by
        have hanc : os.ancestors "/tmp/nonexist.bin" = ["/tmp"] := by decide
        intro a ha e he
        rw [hanc, List.mem_singleton] at ha
        subst ha
        have hfile : sampleFiles "/tmp" = some { mode := os.ModeDir ||| 0o755, data := [] } :=
          by decide
        rw [hfile, Option.some.injEq] at he
        subst he
        decide)).1,
    (validate_missing_entry (Except.ok "/tmp") sampleFiles "/tmp/test.bin/x"
      "/tmp/test.bin/x" rfl (by decide)).2 ["/tmp"] "/tmp/test.bin" []
      { mode := 0o644, data := [116, 101, 115, 116, 32, 99, 111, 110, 116, 101, 110, 116] }
      (by decide)
      (by
        intro b hb
        rw [List.mem_singleton] at hb
        subst hb
        exact ⟨{ mode := os.ModeDir ||| 0o755, data := [] }, by decide, by decide⟩)
      (by decide) (by decide)⟩

end commands
